import Mathlib

/-!
Verification development for the O365 Management Activity event retrieval
script (src/management_activity.py).  The script is embedded shallowly:
the collection loop becomes a fold over the listing entries, threading the
mutable locals (file_index, current_file_name, current_file_size,
total_logs) through an explicit state record, and additionally recording
the observable effects of a run (HTTP requests issued, files opened,
chunks appended to files).  Machine integers are Nat, file contents are
Lean strings, JSON documents are a dedicated inductive type.
-/

/-! ## Characters and decimal digits -/

/-- Decimal digit character for a value below ten (48 is the code of 0). -/
def digitChar (n : Nat) : Char := Char.ofNat (48 + n)

/-- Lowercase hexadecimal digit character, as produced by the python
percent-04x format used for control-character escapes. -/
def hexChar (n : Nat) : Char := if n < 10 then Char.ofNat (48 + n) else Char.ofNat (87 + n)

/-- Test for a decimal digit character. -/
def isDigitChar (c : Char) : Bool := 48 ≤ c.toNat && c.toNat ≤ 57

/-- Numeric value of a decimal digit character. -/
def dval (c : Char) : Nat := c.toNat - 48

/-- Value of a big-endian list of decimal digit characters. -/
def digitsVal (ds : List Char) : Nat := ds.foldl (fun a c => a * 10 + dval c) 0

/-- Big-endian decimal digits of a natural number, with explicit fuel so
that the recursion is structural (fuel n + 1 always suffices). -/
def natDigitsAux : Nat → Nat → List Char
  | 0, _ => []
  | fuel + 1, n =>
    if n < 10 then [digitChar n]
    else natDigitsAux fuel (n / 10) ++ [digitChar (n % 10)]

/-- Big-endian decimal digits of a natural number: the python str of a
nonnegative int. -/
def natDigits (n : Nat) : List Char := natDigitsAux (n + 1) n

/-- Decimal rendering of an integer: the python str of an int (a leading
minus sign for negative values). -/
def intDigits : Int → List Char
  | .ofNat n => natDigits n
  | .negSucc m => '-' :: natDigits (m + 1)

/-! ## JSON documents

JSON values as returned by response.json() and consumed by json.dumps in
the script.  Numbers are modelled as integers: the event payloads are
opaque JSON documents and the claims under study do not depend on
floating-point literals, which a shallow embedding does not model. -/

inductive Json where
  | null
  | bool (b : Bool)
  | num (n : Int)
  | str (s : String)
  | arr (items : List Json)
  | obj (members : List (String × Json))
deriving Repr, Inhabited

/-- Escape of one character inside a JSON string literal, following the
python json encoder with ensure_ascii set to False: quote, backslash and
the named control characters get two-character escapes, the remaining
control characters below 0x20 get a lowercase unicode escape, and every
other character (in particular any non-ASCII character) passes through
unescaped. -/
def escChar (c : Char) : List Char :=
  if c = '"' then ['\\', '"']
  else if c = '\\' then ['\\', '\\']
  else if c = '\n' then ['\\', 'n']
  else if c = '\r' then ['\\', 'r']
  else if c = '\t' then ['\\', 't']
  else if c.toNat = 8 then ['\\', 'b']
  else if c.toNat = 12 then ['\\', 'f']
  else if c.toNat < 32 then ['\\', 'u', '0', '0', hexChar (c.toNat / 16), hexChar (c.toNat % 16)]
  else [c]

/-- Escape of the body of a JSON string literal. -/
def escString : List Char → List Char
  | [] => []
  | c :: cs => escChar c ++ escString cs

mutual

/-- Serialization of a JSON value to a single line, following
json.dumps(event, ensure_ascii=False) with the default separators:
a comma-space between items and a colon-space after keys. -/
def dumpsC : Json → List Char
  | .null => "null".data
  | .bool true => "true".data
  | .bool false => "false".data
  | .num n => intDigits n
  | .str s => '"' :: (escString s.data ++ ['"'])
  | .arr xs => '[' :: (dumpsItems xs ++ [']'])
  | .obj ms => '{' :: (dumpsMembers ms ++ ['}'])

/-- Comma-space separated serializations of the items of a JSON array. -/
def dumpsItems : List Json → List Char
  | [] => []
  | [x] => dumpsC x
  | x :: y :: tl => dumpsC x ++ ',' :: ' ' :: dumpsItems (y :: tl)

/-- Comma-space separated serializations of the members of a JSON object,
each one a quoted escaped key, a colon-space, and the value. -/
def dumpsMembers : List (String × Json) → List Char
  | [] => []
  | [(k, v)] => '"' :: (escString k.data ++ '"' :: ':' :: ' ' :: dumpsC v)
  | (k, v) :: m :: tl =>
    ('"' :: (escString k.data ++ '"' :: ':' :: ' ' :: dumpsC v)) ++ ',' :: ' ' :: dumpsMembers (m :: tl)

end

/-- String form of the serialization: the exact text that json.dump writes
for one event (the python len of this string is its character count,
matching String.length here). -/
def dumps (j : Json) : String := ⟨dumpsC j⟩

mutual

/-- Structural size of a JSON value, counting one per value; used as a
fuel bound for the parser. -/
def jsizeV : Json → Nat
  | .arr xs => jsizeL xs + 1
  | .obj ms => jsizeM ms + 1
  | _ => 1

/-- Structural size of a list of JSON values. -/
def jsizeL : List Json → Nat
  | [] => 1
  | x :: tl => jsizeV x + jsizeL tl

/-- Structural size of a list of JSON object members. -/
def jsizeM : List (String × Json) → Nat
  | [] => 1
  | (_, v) :: tl => jsizeV v + jsizeM tl

end

/-! ## The HTTP client model

The script builds one requests.Session, mounts an HTTPAdapter with a
urllib3 Retry configuration for the https scheme, and issues every request
through that session (lines 21 to 30 of the source). -/

/-- HTTP method of a request issued by the script. -/
inductive Method where
  | post
  | get
deriving Repr, DecidableEq

/-- Observable data of one outbound HTTP request: method, URL, query
parameters, the bearer token carried in the Authorization header if any,
and the timeout argument passed to the call if any. -/
structure HttpRequest where
  method : Method
  url : String
  params : List (String × String)
  bearer : Option String
  timeout : Option Nat
deriving Repr, DecidableEq

/-- Retry configuration, mirroring the urllib3 Retry constructor arguments
used at lines 23 to 27 of the source. -/
structure Retry where
  total : Nat
  backoff_factor : Nat
  status_forcelist : List Nat
deriving Repr, DecidableEq

/-- HTTP session: the retry configuration mounted for URLs with the https
scheme prefix, if any (session.mount at line 29 covers only https). -/
structure Session where
  httpsRetries : Option Retry
deriving Repr, DecidableEq

/-- Embedding of get_session_with_retries (source lines 21 to 30): a
session whose https adapter retries up to 5 times with backoff factor 1
on statuses 429, 500, 502, 503, 504. -/
def get_session_with_retries : Session :=
  { httpsRetries := some { total := 5, backoff_factor := 1, status_forcelist := [429, 500, 502, 503, 504] } }

/-- Retry configuration the session applies to a given URL: the mounted
configuration when the URL has the https scheme, and none otherwise (the
default adapter of a requests session performs no retries). -/
def Session.retryFor (s : Session) (url : String) : Option Retry :=
  if "https://".data.isPrefixOf url.data then s.httpsRetries else none

/-- Modelled from the spec: the retry execution of the shared HTTP client
(urllib3 is an external library, not part of this repository).  Section 5
of the spec: a response whose status is in the forcelist is retried, up to
the configured total number of retries after the initial attempt; a
non-matching status is returned immediately; a transient status surfaces
as a failure (error) only when the retries are exhausted.  The function
receives the stream of statuses the server would return on the successive
attempts, the index of the current attempt, and the retries left. -/
def retryExec (forcelist : List Nat) (responses : Nat → Nat) : Nat → Nat → Except Nat Nat
  | attempt, 0 =>
    if responses attempt ∈ forcelist then .error (responses attempt)
    else .ok (responses attempt)
  | attempt, retriesLeft + 1 =>
    if responses attempt ∈ forcelist then retryExec forcelist responses (attempt + 1) retriesLeft
    else .ok (responses attempt)

/-! ## Constants of the script (source lines 12 to 18) -/

/-- Timeout in seconds passed to the listing and content GET calls. -/
def REQUEST_TIMEOUT : Nat := 120

/-- Size threshold driving file rotation, in MiB. -/
def MAX_FILE_SIZE_MB : Nat := 500

/-! ## Token acquisition (source lines 33 to 43) -/

/-- Token endpoint URL for a tenant. -/
def token_url (tenant_id : String) : String :=
  "https://login.microsoftonline.com/" ++ tenant_id ++ "/oauth2/v2.0/token"

/-- The outbound token request: session.post(url, data=body) at line 41
carries no timeout argument and no Authorization header. -/
def token_request (tenant_id : String) : HttpRequest :=
  { method := .post, url := token_url tenant_id, params := [], bearer := none, timeout := none }

/-- HTTP response as seen by the script after the session resolved the
request: final status code and parsed JSON body. -/
structure HttpResponse where
  status : Nat
  body : Json
deriving Repr

/-- Embedding of response.raise_for_status(): the requests library raises
an HTTPError exactly for client-error and server-error statuses, that is
for 400 to 599. -/
def raise_for_status (status : Nat) : Bool := decide (400 ≤ status ∧ status < 600)

/-- Field access on a parsed JSON body, as in response.json()["key"]:
produces the value when the body is an object containing the key, and
nothing otherwise (a missing key or a non-object body raises in python). -/
def jsonGet : Json → String → Option Json
  | .obj ms, k => lookupMember ms k
  | _, _ => none
where
  lookupMember : List (String × Json) → String → Option Json
    | [], _ => none
    | (k, v) :: tl, key => if k = key then some v else lookupMember tl key

/-- Outcome of get_access_token, tagged with the error taxonomy of the
spec: authError for the HTTPError from raise_for_status (carrying the
status), malformed for a missing access_token field. -/
inductive TokenResult where
  | ok (token : Json)
  | authError (status : Nat)
  | malformed
deriving Repr

/-- Embedding of get_access_token (source lines 33 to 43): the response to
the token POST is checked with raise_for_status, then the access_token
field of the JSON body is returned. -/
def get_access_token (resp : HttpResponse) : TokenResult :=
  if raise_for_status resp.status then .authError resp.status
  else
    match jsonGet resp.body "access_token" with
    | some t => .ok t
    | none => .malformed

/-! ## The collection loop (source lines 46 to 96) -/

/-- Embedding of get_new_file_name (source lines 46 to 47): the f-string
interpolating base name, underscore, decimal index, extension. -/
def get_new_file_name (base_name extension : String) (index : Nat) : String :=
  base_name ++ "_" ++ String.mk (natDigits index) ++ extension

/-- One entry of the parsed content listing; the script reads only its
contentUri field, via content.get("contentUri"), so the entry is modelled
by that optional field. -/
structure ContentEntry where
  contentUri : Option String
deriving Repr

/-- Listing endpoint URL for a tenant (source line 55). -/
def listing_url (tenant_id : String) : String :=
  "https://manage.office.com/api/v1.0/" ++ tenant_id ++ "/activity/feed/subscriptions/content"

/-- State threaded through the collection loop: the four mutable locals of
collect_logs, plus the observable effect trace of the run so far (requests
issued, file names opened for append, and chunks appended, each chunk
tagged with the name of the file it went to). -/
structure CollectState where
  file_index : Nat
  current_file_name : String
  current_file_size : Nat
  total_logs : Nat
  requests : List HttpRequest
  opens : List String
  writes : List (String × String)
deriving Repr

/-- Embedding of the body of the inner event loop (source lines 83 to 93):
the serialized event and a newline are appended to the open file handle,
the byte counter grows by the character length of the serialization plus
one, the total grows by one, and then the rotation check runs: when the
counter strictly exceeds the threshold, the file index is incremented, the
next file name is computed and the counter is reset.  The handle argument
is the file the enclosing with-block opened: the python file object bound
before the loop, which the rotation does not rebind. -/
def writeEvent (base_file_name extension handle : String) (st : CollectState) (event : Json) : CollectState :=
  let st1 : CollectState :=
    { st with
      writes := st.writes ++ [(handle, dumps event ++ "\n")],
      current_file_size := st.current_file_size + (dumps event).length + 1,
      total_logs := st.total_logs + 1 }
  if MAX_FILE_SIZE_MB * 1024 * 1024 < st1.current_file_size then
    { st1 with
      file_index := st1.file_index + 1,
      current_file_name := get_new_file_name base_file_name extension (st1.file_index + 1),
      current_file_size := 0 }
  else st1

/-- Embedding of one iteration of the content loop (source lines 71 to
93): an entry whose contentUri is missing or empty (falsy in python) is
skipped; otherwise the content GET is issued, the current file is opened
for append, and every event of the fetched array is written through that
handle. -/
def processContent (base_file_name extension token : String) (fetch : String → List Json)
    (st : CollectState) (content : ContentEntry) : CollectState :=
  match content.contentUri with
  | none => st
  | some uri =>
    if uri.data.isEmpty then st
    else
      let st1 : CollectState :=
        { st with
          requests := st.requests ++
            [{ method := .get, url := uri, params := [], bearer := some token,
               timeout := some REQUEST_TIMEOUT }] }
      let st2 : CollectState := { st1 with opens := st1.opens ++ [st1.current_file_name] }
      (fetch uri).foldl (writeEvent base_file_name extension st1.current_file_name) st2

/-- Embedding of collect_logs (source lines 50 to 96) on the success path:
the listing GET is issued with the bearer token, the query parameters and
the timeout; the parsed listing is the content_list argument; fetch gives
the parsed JSON array each content GET returns (every content response is
a 2xx, since any HTTP failure aborts the whole run by exception).  The
function returns the final loop state; the python return value is its
total_logs field. -/
def collect_logs (token tenant_id start_date_time end_date_time base_file_name extension : String)
    (fetch : String → List Json) (content_list : List ContentEntry) : CollectState :=
  let st0 : CollectState :=
    { file_index := 0,
      current_file_name := get_new_file_name base_file_name extension 0,
      current_file_size := 0,
      total_logs := 0,
      requests :=
        [{ method := .get, url := listing_url tenant_id,
           params := [("contentType", "Audit.AzureActiveDirectory"),
                      ("startTime", start_date_time), ("endTime", end_date_time)],
           bearer := some token, timeout := some REQUEST_TIMEOUT }],
      opens := [],
      writes := [] }
  content_list.foldl (processContent base_file_name extension token fetch) st0

/-- Total number of bytes appended to the file with the given name during
a run, out of the recorded write trace (strings are stored to disk in
UTF-8). -/
def fileBytes (writes : List (String × String)) (name : String) : Nat :=
  (writes.map (fun w => if w.1 = name then w.2.utf8ByteSize else 0)).sum

/-- Modelled from the spec (section 4.2 step 7, refinement target for the
returned total): the sum, over the listing entries carrying a usable
content URI, of the number of events in the fetched array of that entry. -/
def expected_total (fetch : String → List Json) (content_list : List ContentEntry) : Nat :=
  (content_list.map (fun c =>
    match c.contentUri with
    | none => 0
    | some uri => if uri.data.isEmpty then 0 else (fetch uri).length)).sum

/-! ## Parsing a line back as JSON

Modelled from the spec (section 8, round-trip property): the output lines
are parsed back as JSON; the python json.loads parser is an external
library, so its grammar is modelled here for the JSON fragment the
embedding covers (integer numerals; no surrogate-pair escapes). -/

/-- JSON whitespace (space, tab, newline, carriage return). -/
def isWs (c : Char) : Bool := c = ' ' || c = '\t' || c = '\n' || c = '\r'

/-- Drop leading JSON whitespace. -/
def skipWs : List Char → List Char
  | [] => []
  | c :: cs => if isWs c then skipWs cs else c :: cs

/-- Decode of a single-character string escape. -/
def escDecode (e : Char) : Option Char :=
  if e = '"' then some '"'
  else if e = '\\' then some '\\'
  else if e = '/' then some '/'
  else if e = 'b' then some (Char.ofNat 8)
  else if e = 'f' then some (Char.ofNat 12)
  else if e = 'n' then some '\n'
  else if e = 'r' then some '\r'
  else if e = 't' then some '\t'
  else none

/-- Value of one hexadecimal digit character, either case. -/
def parseHex (c : Char) : Option Nat :=
  if 48 ≤ c.toNat ∧ c.toNat ≤ 57 then some (c.toNat - 48)
  else if 97 ≤ c.toNat ∧ c.toNat ≤ 102 then some (c.toNat - 87)
  else if 65 ≤ c.toNat ∧ c.toNat ≤ 70 then some (c.toNat - 55)
  else none

/-- Character with a given code point, when the code point is a valid
unicode scalar value. -/
def charOfCode (n : Nat) : Option Char :=
  if h : n.isValidChar then some (Char.ofNatAux n h) else none

/-- Body of a JSON string literal up to its closing quote: produces the
decoded characters and the input following the closing quote. -/
def parseStringBody : List Char → Option (List Char × List Char)
  | [] => none
  | c :: cs =>
    if c = '"' then some ([], cs)
    else if c = '\\' then
      match cs with
      | [] => none
      | e :: cs1 =>
        if e = 'u' then
          match cs1 with
          | a :: b :: c2 :: d :: cs2 =>
            match parseHex a, parseHex b, parseHex c2, parseHex d with
            | some va, some vb, some vc, some vd =>
              match charOfCode (((va * 16 + vb) * 16 + vc) * 16 + vd) with
              | some ch =>
                match parseStringBody cs2 with
                | some (s, r) => some (ch :: s, r)
                | none => none
              | none => none
            | _, _, _, _ => none
          | _ => none
        else
          match escDecode e with
          | some ch =>
            match parseStringBody cs1 with
            | some (s, r) => some (ch :: s, r)
            | none => none
          | none => none
    else if c.toNat < 32 then none
    else
      match parseStringBody cs with
      | some (s, r) => some (c :: s, r)
      | none => none

/-- Longest prefix of decimal digit characters, and the rest. -/
def takeDigits : List Char → List Char × List Char
  | [] => ([], [])
  | c :: cs =>
    if isDigitChar c then
      let p := takeDigits cs
      (c :: p.1, p.2)
    else ([], c :: cs)

/-- Negation of a JSON numeral. -/
def negJson : Json → Json
  | .num n => .num (-n)
  | j => j

/-- Unsigned JSON numeral: a nonempty digit string not followed by a
fraction or exponent marker (fractions and exponents denote floats, which
are outside the modelled fragment). -/
def parseNumberCore (cs : List Char) : Option (Json × List Char) :=
  let p := takeDigits cs
  if p.1.isEmpty then none
  else if p.2.head? = some '.' ∨ p.2.head? = some 'e' ∨ p.2.head? = some 'E' then none
  else some (.num (Int.ofNat (digitsVal p.1)), p.2)

/-- JSON numeral with an optional leading minus sign. -/
def parseNumber (cs : List Char) : Option (Json × List Char) :=
  if cs.head? = some '-' then
    match parseNumberCore cs.tail with
    | some (j, r) => some (negJson j, r)
    | none => none
  else parseNumberCore cs

/-- Match a literal keyword tail, producing the input after it. -/
def dropLit : List Char → List Char → Option (List Char)
  | [], cs => some cs
  | _ :: _, [] => none
  | p :: ps, c :: cs => if c = p then dropLit ps cs else none

mutual

/-- Recursive-descent JSON value: leading whitespace is skipped, the first
character selects the production.  The fuel argument makes the recursion
structural; any fuel at least the structural size of the value suffices. -/
def parseVal : Nat → List Char → Option (Json × List Char)
  | 0, _ => none
  | fuel + 1, cs =>
    match skipWs cs with
    | [] => none
    | c :: rest =>
      if c = 'n' then
        match dropLit ['u', 'l', 'l'] rest with
        | some r => some (.null, r)
        | none => none
      else if c = 't' then
        match dropLit ['r', 'u', 'e'] rest with
        | some r => some (.bool true, r)
        | none => none
      else if c = 'f' then
        match dropLit ['a', 'l', 's', 'e'] rest with
        | some r => some (.bool false, r)
        | none => none
      else if c = '"' then
        match parseStringBody rest with
        | some (s, r) => some (.str ⟨s⟩, r)
        | none => none
      else if c = '[' then
        if (skipWs rest).head? = some ']' then some (.arr [], (skipWs rest).tail)
        else
          match parseItems fuel rest with
          | some (xs, r) => some (.arr xs, r)
          | none => none
      else if c = '{' then
        if (skipWs rest).head? = some '}' then some (.obj [], (skipWs rest).tail)
        else
          match parseMembers fuel rest with
          | some (ms, r) => some (.obj ms, r)
          | none => none
      else parseNumber (c :: rest)

/-- Nonempty comma-separated item list of a JSON array, up to and
including the closing bracket. -/
def parseItems : Nat → List Char → Option (List Json × List Char)
  | 0, _ => none
  | fuel + 1, cs =>
    match parseVal fuel cs with
    | none => none
    | some (j, rest) =>
      match skipWs rest with
      | ',' :: rest1 =>
        match parseItems fuel rest1 with
        | some (xs, r) => some (j :: xs, r)
        | none => none
      | ']' :: rest1 => some ([j], rest1)
      | _ => none

/-- Nonempty comma-separated member list of a JSON object, up to and
including the closing brace. -/
def parseMembers : Nat → List Char → Option (List (String × Json) × List Char)
  | 0, _ => none
  | fuel + 1, cs =>
    match skipWs cs with
    | [] => none
    | c :: rest =>
      if c = '"' then
        match parseStringBody rest with
        | none => none
        | some (k, rest1) =>
          match skipWs rest1 with
          | ':' :: rest2 =>
            match parseVal fuel rest2 with
            | none => none
            | some (v, rest3) =>
              match skipWs rest3 with
              | ',' :: rest4 =>
                match parseMembers fuel rest4 with
                | some (ms, r) => some ((⟨k⟩, v) :: ms, r)
                | none => none
              | '}' :: rest4 => some ([(⟨k⟩, v)], rest4)
              | _ => none
          | _ => none
      else none

end

/-- Parse a whole string as one JSON document: one value, followed only by
whitespace. -/
def loads (s : String) : Option Json :=
  match parseVal (s.data.length + 1) s.data with
  | some (j, rest) => if (skipWs rest).isEmpty then some j else none
  | none => none

/-! ## Oversized events and rotation -/

def EVENT_OUTPUT_FILE_BASE : String := "azure_ad_logs/management_activity_event_output"

def EVENT_OUTPUT_FILE_EXTENSION : String := ".json"

/-- An event whose serialization exceeds the rotation threshold: a JSON
string of as many characters as the threshold has bytes. -/
def hugeEvent : Json := .str ⟨List.replicate (MAX_FILE_SIZE_MB * 1024 * 1024) 'a'⟩

/-- A run with a single listing entry whose content yields three oversized
events in one batch. -/
def runC1 : CollectState :=
  collect_logs "tok" "tenant" "2024-01-01T00:00:00Z" "2024-01-01T01:00:00Z"
    EVENT_OUTPUT_FILE_BASE EVENT_OUTPUT_FILE_EXTENSION
    (fun _ => [hugeEvent, hugeEvent, hugeEvent]) [⟨some "https://content.example/1"⟩]

/-- A run with a single listing entry whose content yields one oversized
event followed by a small one, in one batch. -/
def runC2 : CollectState :=
  collect_logs "tok" "tenant" "2024-01-01T00:00:00Z" "2024-01-01T01:00:00Z"
    EVENT_OUTPUT_FILE_BASE EVENT_OUTPUT_FILE_EXTENSION
    (fun _ => [hugeEvent, .num 1]) [⟨some "https://content.example/1"⟩]

/-! ## Additional concrete runs used by counterexamples and witnesses -/

def runHttpUri : CollectState :=
  collect_logs "tok" "tenant" "s" "e" "base" ".json" (fun _ => [])
    [⟨some "http://content.example/1"⟩]

def runAccent : CollectState :=
  collect_logs "tok" "tenant" "s" "e" "b" ".j" (fun _ => [.str "é"])
    [⟨some "https://content.example/1"⟩]

/-- Delimiter condition after a serialized value: the following input must
not begin with a character that would extend a numeral. -/
def numDelim (rest : List Char) : Prop :=
  ∀ c, rest.head? = some c → isDigitChar c = false ∧ c ≠ '.' ∧ c ≠ 'e' ∧ c ≠ 'E'

/-- Invariant tying the rotation counter to the trace: the counter equals
the summed character length (serialization plus newline) of the most
recently written events, those written since the counter was last reset. -/
def SizeInv (st : CollectState) : Prop :=
  ∃ es : List Json,
    st.current_file_size = (es.map (fun e => (dumps e).length + 1)).sum ∧
    es.map (fun e => dumps e ++ "\n") <:+ st.writes.map Prod.snd

/-- Provenance of a recorded write: it is the line of some event of some
fetched content entry of the listing. -/
def WriteProv (fetch : String → List Json) (cl : List ContentEntry) (w : String × String) : Prop :=
  ∃ c, c ∈ cl ∧ ∃ uri ev, c.contentUri = some uri ∧ ev ∈ fetch uri ∧ w.2 = dumps ev ++ "\n"

/-! ## Character and digit lemmas -/

theorem char_eq_of_toNat_eq {c d : Char} (h : c.toNat = d.toNat) : c = d :=
  Char.eq_of_val_eq (UInt32.ext h)

theorem toNat_ofNatAux (n : Nat) (h : Nat.isValidChar n) : (Char.ofNatAux n h).toNat = n := rfl

theorem charOfCode_toNat (c : Char) (h : c.toNat < 55296) : charOfCode c.toNat = some c := by
  have hv : Nat.isValidChar c.toNat := Or.inl h
  rw [charOfCode, dif_pos hv]
  exact congrArg some (char_eq_of_toNat_eq (toNat_ofNatAux _ hv))

theorem isDigitChar_toNat {c : Char} (h : isDigitChar c = true) : 48 ≤ c.toNat ∧ c.toNat ≤ 57 := by
  simpa [isDigitChar, Bool.and_eq_true, decide_eq_true_eq] using h

theorem isDigitChar_ne {c : Char} (h : isDigitChar c = true) (d : Char)
    (hd : isDigitChar d = false) : c ≠ d := by
  intro he
  rw [he, hd] at h
  exact Bool.false_ne_true h

theorem isWs_of_digit {c : Char} (h : isDigitChar c = true) : isWs c = false := by
  have h1 : c ≠ ' ' := isDigitChar_ne h ' ' (by decide)
  have h2 : c ≠ '\t' := isDigitChar_ne h '\t' (by decide)
  have h3 : c ≠ '\n' := isDigitChar_ne h '\n' (by decide)
  have h4 : c ≠ '\r' := isDigitChar_ne h '\r' (by decide)
  simp [isWs, h1, h2, h3, h4]

theorem digitChar_isDigit : ∀ m, m < 10 → isDigitChar (digitChar m) = true := by decide

theorem dval_digitChar : ∀ m, m < 10 → dval (digitChar m) = m := by decide

theorem digitsVal_append (l : List Char) (c : Char) :
    digitsVal (l ++ [c]) = digitsVal l * 10 + dval c := by
  simp [digitsVal, List.foldl_append]

theorem natDigitsAux_ne_nil (fuel n : Nat) : natDigitsAux (fuel + 1) n ≠ [] := by
  simp only [natDigitsAux]
  split
  · simp
  · simp

theorem natDigits_ne_nil (n : Nat) : natDigits n ≠ [] := natDigitsAux_ne_nil n n

theorem natDigitsAux_digits :
    ∀ fuel n, n < 10 ^ fuel → ∀ c ∈ natDigitsAux fuel n, isDigitChar c = true := by
  intro fuel
  induction fuel with
  | zero => intro n hn c hc; simp [natDigitsAux] at hc
  | succ f ih =>
    intro n hn c hc
    simp only [natDigitsAux] at hc
    by_cases h10 : n < 10
    · rw [if_pos h10] at hc
      simp at hc
      exact hc ▸ digitChar_isDigit n h10
    · rw [if_neg h10] at hc
      rcases List.mem_append.mp hc with h | h
      · have hb : n / 10 < 10 ^ f := by
          rw [Nat.div_lt_iff_lt_mul (by norm_num)]
          calc n < 10 ^ (f + 1) := hn
            _ = 10 ^ f * 10 := pow_succ 10 f
        exact ih (n / 10) hb c h
      · simp at h
        exact h ▸ digitChar_isDigit (n % 10) (Nat.mod_lt n (by norm_num))

theorem natDigitsAux_val : ∀ fuel n, n < 10 ^ fuel → digitsVal (natDigitsAux fuel n) = n := by
  intro fuel
  induction fuel with
  | zero => intro n hn; interval_cases n; rfl
  | succ f ih =>
    intro n hn
    simp only [natDigitsAux]
    by_cases h10 : n < 10
    · rw [if_pos h10]
      simp [digitsVal, dval_digitChar n h10]
    · rw [if_neg h10]
      rw [digitsVal_append]
      have hb : n / 10 < 10 ^ f := by
        rw [Nat.div_lt_iff_lt_mul (by norm_num)]
        calc n < 10 ^ (f + 1) := hn
          _ = 10 ^ f * 10 := pow_succ 10 f
      rw [ih (n / 10) hb, dval_digitChar (n % 10) (Nat.mod_lt n (by norm_num))]
      omega

theorem lt_ten_pow_succ (n : Nat) : n < 10 ^ (n + 1) := by
  induction n with
  | zero => decide
  | succ m ih =>
    have h1 : 0 < 10 ^ (m + 1) := Nat.pos_pow_of_pos (m + 1) (by norm_num)
    calc m + 1 ≤ 10 ^ (m + 1) := ih
      _ < 10 ^ (m + 1) * 10 := by omega
      _ = 10 ^ (m + 2) := (pow_succ 10 (m + 1)).symm

theorem digitsVal_natDigits (n : Nat) : digitsVal (natDigits n) = n :=
  natDigitsAux_val (n + 1) n (lt_ten_pow_succ n)

theorem natDigits_digits (n : Nat) : ∀ c ∈ natDigits n, isDigitChar c = true :=
  natDigitsAux_digits (n + 1) n (lt_ten_pow_succ n)

/-! ## Number parsing lemmas -/

theorem numDelim_nil : numDelim [] := by intro c hc; simp at hc

theorem numDelim_cons {c : Char} (h1 : isDigitChar c = false) (h2 : c ≠ '.') (h3 : c ≠ 'e')
    (h4 : c ≠ 'E') (l : List Char) : numDelim (c :: l) := by
  intro d hd
  simp at hd
  exact hd ▸ ⟨h1, h2, h3, h4⟩

theorem numDelim_comma (l : List Char) : numDelim (',' :: l) :=
  numDelim_cons (by decide) (by decide) (by decide) (by decide) l

theorem numDelim_rbracket (l : List Char) : numDelim (']' :: l) :=
  numDelim_cons (by decide) (by decide) (by decide) (by decide) l

theorem numDelim_rbrace (l : List Char) : numDelim ('}' :: l) :=
  numDelim_cons (by decide) (by decide) (by decide) (by decide) l

theorem takeDigits_of_digits :
    ∀ ds rest, (∀ c ∈ ds, isDigitChar c = true) →
      (∀ c, rest.head? = some c → isDigitChar c = false) →
      takeDigits (ds ++ rest) = (ds, rest) := by
  intro ds
  induction ds with
  | nil =>
    intro rest _ hr
    cases rest with
    | nil => rfl
    | cons c t =>
      have := hr c rfl
      simp [takeDigits, this]
  | cons d ds' ih =>
    intro rest hd hr
    have hdd : isDigitChar d = true := hd d (List.mem_cons_self d ds')
    have hrec := ih rest (fun c hc => hd c (List.mem_cons_of_mem d hc)) hr
    simp [takeDigits, hdd, hrec]

theorem parseNumberCore_natDigits (n : Nat) (rest : List Char) (hr : numDelim rest) :
    parseNumberCore (natDigits n ++ rest) = some (.num (Int.ofNat n), rest) := by
  have htd : takeDigits (natDigits n ++ rest) = (natDigits n, rest) :=
    takeDigits_of_digits (natDigits n) rest (natDigits_digits n) (fun c hc => (hr c hc).1)
  have hne : (natDigits n).isEmpty = false := by
    cases h : natDigits n with
    | nil => exact absurd h (natDigits_ne_nil n)
    | cons a l => rfl
  have hdot : ¬(rest.head? = some '.' ∨ rest.head? = some 'e' ∨ rest.head? = some 'E') := by
    rintro (h | h | h)
    · exact absurd rfl (hr '.' h).2.1
    · exact absurd rfl (hr 'e' h).2.2.1
    · exact absurd rfl (hr 'E' h).2.2.2
  rw [parseNumberCore]
  simp only [htd, hne, Bool.false_eq_true, if_false, hdot, digitsVal_natDigits]

theorem natDigits_head_digit (n : Nat) {d : Char} {l : List Char} (h : natDigits n = d :: l) :
    isDigitChar d = true :=
  natDigits_digits n d (h ▸ List.mem_cons_self d l)

theorem parseNumber_intDigits (i : Int) (rest : List Char) (hr : numDelim rest) :
    parseNumber (intDigits i ++ rest) = some (.num i, rest) := by
  cases i with
  | ofNat n =>
    rw [intDigits]
    obtain ⟨d, l, hd⟩ : ∃ d l, natDigits n = d :: l := by
      cases h : natDigits n with
      | nil => exact absurd h (natDigits_ne_nil n)
      | cons a t => exact ⟨a, t, rfl⟩
    have hdd : isDigitChar d = true := natDigits_head_digit n hd
    have hne : d ≠ '-' := isDigitChar_ne hdd '-' (by decide)
    rw [parseNumber, hd]
    simp only [List.cons_append, List.head?_cons]
    rw [if_neg (by simpa using hne)]
    rw [show (d :: (l ++ rest)) = (d :: l) ++ rest from rfl, ← hd]
    exact parseNumberCore_natDigits n rest hr
  | negSucc m =>
    rw [intDigits]
    rw [parseNumber]
    simp only [List.cons_append, List.head?_cons, List.tail_cons, if_pos rfl]
    rw [parseNumberCore_natDigits (m + 1) rest hr]
    rfl

theorem parseHex_hexChar : ∀ m, m < 16 → parseHex (hexChar m) = some m := by decide

theorem parseHex_zero : parseHex '0' = some 0 := by decide

theorem parseStringBody_esc : ∀ s rest, parseStringBody (escString s ++ '"' :: rest) = some (s, rest) := by
  intro s
  induction s with
  | nil => intro rest; rw [escString, List.nil_append, parseStringBody.eq_def]; simp
  | cons c s' ih =>
    intro rest
    rw [escString, List.append_assoc]
    by_cases h1 : c = '"'
    · subst h1
      rw [show escChar '"' = ['\\', '"'] from rfl]
      rw [List.cons_append, List.cons_append, List.nil_append, parseStringBody.eq_def]
      simp [escDecode, ih]
    by_cases h2 : c = '\\'
    · subst h2
      rw [show escChar '\\' = ['\\', '\\'] from rfl]
      rw [List.cons_append, List.cons_append, List.nil_append, parseStringBody.eq_def]
      simp [escDecode, ih]
    by_cases h3 : c = '\n'
    · subst h3
      rw [show escChar '\n' = ['\\', 'n'] from rfl]
      rw [List.cons_append, List.cons_append, List.nil_append, parseStringBody.eq_def]
      simp [escDecode, ih]
    by_cases h4 : c = '\r'
    · subst h4
      rw [show escChar '\r' = ['\\', 'r'] from rfl]
      rw [List.cons_append, List.cons_append, List.nil_append, parseStringBody.eq_def]
      simp [escDecode, ih]
    by_cases h5 : c = '\t'
    · subst h5
      rw [show escChar '\t' = ['\\', 't'] from rfl]
      rw [List.cons_append, List.cons_append, List.nil_append, parseStringBody.eq_def]
      simp [escDecode, ih]
    by_cases h6 : c.toNat = 8
    · have hc : c = Char.ofNat 8 := char_eq_of_toNat_eq (by rw [h6]; decide)
      subst hc
      rw [show escChar (Char.ofNat 8) = ['\\', 'b'] from rfl]
      rw [List.cons_append, List.cons_append, List.nil_append, parseStringBody.eq_def]
      simp [escDecode, ih]
    by_cases h7 : c.toNat = 12
    · have hc : c = Char.ofNat 12 := char_eq_of_toNat_eq (by rw [h7]; decide)
      subst hc
      rw [show escChar (Char.ofNat 12) = ['\\', 'f'] from rfl]
      rw [List.cons_append, List.cons_append, List.nil_append, parseStringBody.eq_def]
      simp [escDecode, ih]
    by_cases h8 : c.toNat < 32
    · rw [show escChar c = ['\\', 'u', '0', '0', hexChar (c.toNat / 16), hexChar (c.toNat % 16)]
        from by rw [escChar]; rw [if_neg h1, if_neg h2, if_neg h3, if_neg h4, if_neg h5,
          if_neg h6, if_neg h7, if_pos h8]]
      rw [List.cons_append, List.cons_append, List.cons_append, List.cons_append,
        List.cons_append, List.cons_append, List.nil_append, parseStringBody.eq_def]
      have hx1 : parseHex (hexChar (c.toNat / 16)) = some (c.toNat / 16) :=
        parseHex_hexChar _ (by omega)
      have hx2 : parseHex (hexChar (c.toNat % 16)) = some (c.toNat % 16) :=
        parseHex_hexChar _ (by omega)
      have hco : charOfCode (((0 * 16 + 0) * 16 + c.toNat / 16) * 16 + c.toNat % 16) = some c := by
        rw [show ((0 * 16 + 0) * 16 + c.toNat / 16) * 16 + c.toNat % 16 = c.toNat from by omega]
        exact charOfCode_toNat c (by omega)
      have hco2 : charOfCode (c.toNat / 16 * 16 + c.toNat % 16) = some c := by
        rw [show c.toNat / 16 * 16 + c.toNat % 16 = c.toNat from by omega]
        exact charOfCode_toNat c (by omega)
      simp [parseHex_zero, hx1, hx2, hco, hco2, ih]
    · rw [show escChar c = [c] from by rw [escChar]; rw [if_neg h1, if_neg h2, if_neg h3,
        if_neg h4, if_neg h5, if_neg h6, if_neg h7, if_neg h8]]
      rw [List.cons_append, List.nil_append, parseStringBody.eq_def]
      simp [h1, h2, h8, ih]

theorem jsizeV_num (n : Int) : jsizeV (.num n) = 1 := rfl

theorem jsizeV_pos (j : Json) : 1 ≤ jsizeV j := by
  cases j with
  | null => exact Nat.le_refl 1
  | bool b => exact Nat.le_refl 1
  | num n => exact Nat.le_refl 1
  | str s => exact Nat.le_refl 1
  | arr xs => rw [jsizeV]; omega
  | obj ms => rw [jsizeV]; omega

theorem jsizeL_pos (xs : List Json) : 1 ≤ jsizeL xs := by
  cases xs with
  | nil => exact Nat.le_refl 1
  | cons x tl => have := jsizeV_pos x; rw [jsizeL]; omega

theorem jsizeM_pos (ms : List (String × Json)) : 1 ≤ jsizeM ms := by
  cases ms with
  | nil => exact Nat.le_refl 1
  | cons m tl =>
    obtain ⟨k, v⟩ := m
    have := jsizeV_pos v
    rw [jsizeM]
    omega

theorem skipWs_cons_neg {c : Char} (h : isWs c = false) (cs : List Char) :
    skipWs (c :: cs) = c :: cs := by
  simp [skipWs, h]

theorem skipWs_space (cs : List Char) : skipWs (' ' :: cs) = skipWs cs := by
  simp [skipWs, isWs]


theorem parseVal_space (fuel : Nat) (cs : List Char) :
    parseVal fuel (' ' :: cs) = parseVal fuel cs := by
  cases fuel with
  | zero => rfl
  | succ f => rw [parseVal, parseVal, skipWs_space]

theorem parseItems_space (fuel : Nat) (cs : List Char) :
    parseItems fuel (' ' :: cs) = parseItems fuel cs := by
  cases fuel with
  | zero => rfl
  | succ f => rw [parseItems, parseItems, parseVal_space]

theorem parseMembers_space (fuel : Nat) (cs : List Char) :
    parseMembers fuel (' ' :: cs) = parseMembers fuel cs := by
  cases fuel with
  | zero => rfl
  | succ f => rw [parseMembers, parseMembers, skipWs_space]

theorem dumpsC_head (j : Json) :
    ∃ c l, dumpsC j = c :: l ∧ isWs c = false ∧ c ≠ ']' ∧ c ≠ '}' := by
  cases j with
  | null => exact ⟨'n', ['u', 'l', 'l'], rfl, by decide, by decide, by decide⟩
  | bool b =>
    cases b with
    | false => exact ⟨'f', ['a', 'l', 's', 'e'], rfl, by decide, by decide, by decide⟩
    | true => exact ⟨'t', ['r', 'u', 'e'], rfl, by decide, by decide, by decide⟩
  | num n =>
    cases n with
    | ofNat m =>
      obtain ⟨d, l, hd⟩ : ∃ d l, natDigits m = d :: l := by
        cases h : natDigits m with
        | nil => exact absurd h (natDigits_ne_nil m)
        | cons a t => exact ⟨a, t, rfl⟩
      have hdd := natDigits_head_digit m hd
      refine ⟨d, l, ?_, isWs_of_digit hdd, isDigitChar_ne hdd ']' (by decide),
        isDigitChar_ne hdd '}' (by decide)⟩
      rw [show dumpsC (.num (.ofNat m)) = natDigits m from rfl, hd]
    | negSucc m => exact ⟨'-', natDigits (m + 1), rfl, by decide, by decide, by decide⟩
  | str s => exact ⟨'"', escString s.data ++ ['"'], rfl, by decide, by decide, by decide⟩
  | arr xs => exact ⟨'[', dumpsItems xs ++ [']'], rfl, by decide, by decide, by decide⟩
  | obj ms => exact ⟨'{', dumpsMembers ms ++ ['}'], rfl, by decide, by decide, by decide⟩

theorem dumpsItems_cons_eq (x : Json) (tl : List Json) :
    ∃ t, dumpsItems (x :: tl) = dumpsC x ++ t := by
  cases tl with
  | nil => exact ⟨[], (List.append_nil _).symm⟩
  | cons y tl' => exact ⟨',' :: ' ' :: dumpsItems (y :: tl'), rfl⟩

theorem parseVal_succ_number (f : Nat) {c : Char} (hw : isWs c = false) (h1 : c ≠ 'n')
    (h2 : c ≠ 't') (h3 : c ≠ 'f') (h4 : c ≠ '"') (h5 : c ≠ '[') (h6 : c ≠ '{')
    (l : List Char) : parseVal (f + 1) (c :: l) = parseNumber (c :: l) := by
  rw [parseVal.eq_2, skipWs_cons_neg hw]
  simp [h1, h2, h3, h4, h5, h6]

theorem parseVal_succ_quote (f : Nat) (l : List Char) :
    parseVal (f + 1) ('"' :: l) =
      match parseStringBody l with
      | some (s, r) => some (.str ⟨s⟩, r)
      | none => none := by
  rw [parseVal.eq_2, skipWs_cons_neg (by decide)]
  simp

theorem parseVal_succ_lbracket (f : Nat) (l : List Char) :
    parseVal (f + 1) ('[' :: l) =
      if (skipWs l).head? = some ']' then some (.arr [], (skipWs l).tail)
      else
        match parseItems f l with
        | some (xs, r) => some (.arr xs, r)
        | none => none := by
  rw [parseVal.eq_2, skipWs_cons_neg (by decide)]
  simp

theorem parseVal_succ_lbrace (f : Nat) (l : List Char) :
    parseVal (f + 1) ('{' :: l) =
      if (skipWs l).head? = some '}' then some (.obj [], (skipWs l).tail)
      else
        match parseMembers f l with
        | some (ms, r) => some (.obj ms, r)
        | none => none := by
  rw [parseVal.eq_2, skipWs_cons_neg (by decide)]
  simp

theorem parse_dumps (fuel : Nat) :
    (∀ j rest, jsizeV j ≤ fuel → numDelim rest →
        parseVal fuel (dumpsC j ++ rest) = some (j, rest)) ∧
    (∀ xs rest, jsizeL xs ≤ fuel → xs ≠ [] →
        parseItems fuel (dumpsItems xs ++ ']' :: rest) = some (xs, rest)) ∧
    (∀ ms rest, jsizeM ms ≤ fuel → ms ≠ [] →
        parseMembers fuel (dumpsMembers ms ++ '}' :: rest) = some (ms, rest)) := by
  induction fuel with
  | zero =>
    refine ⟨?_, ?_, ?_⟩
    · intro j rest hj _
      exact absurd hj (by have := jsizeV_pos j; omega)
    · intro xs rest hx _
      exact absurd hx (by have := jsizeL_pos xs; omega)
    · intro ms rest hm _
      exact absurd hm (by have := jsizeM_pos ms; omega)
  | succ f ih =>
    obtain ⟨ihV, ihI, ihM⟩ := ih
    refine ⟨?_, ?_, ?_⟩
    · intro j rest hj hnd
      cases j with
      | null =>
        rw [show dumpsC .null ++ rest = 'n' :: 'u' :: 'l' :: 'l' :: rest from rfl]
        rw [parseVal.eq_2, skipWs_cons_neg (by decide)]
        simp [dropLit]
      | bool b =>
        cases b with
        | false =>
          rw [show dumpsC (.bool false) ++ rest = 'f' :: 'a' :: 'l' :: 's' :: 'e' :: rest from rfl]
          rw [parseVal.eq_2, skipWs_cons_neg (by decide)]
          simp [dropLit]
        | true =>
          rw [show dumpsC (.bool true) ++ rest = 't' :: 'r' :: 'u' :: 'e' :: rest from rfl]
          rw [parseVal.eq_2, skipWs_cons_neg (by decide)]
          simp [dropLit]
      | num n =>
        rw [show dumpsC (.num n) = intDigits n from rfl]
        cases n with
        | ofNat m =>
          obtain ⟨d, l, hd⟩ : ∃ d l, natDigits m = d :: l := by
            cases h : natDigits m with
            | nil => exact absurd h (natDigits_ne_nil m)
            | cons a t => exact ⟨a, t, rfl⟩
          have hdd := natDigits_head_digit m hd
          rw [show intDigits (.ofNat m) = natDigits m from rfl, hd, List.cons_append]
          rw [parseVal_succ_number f (isWs_of_digit hdd) (isDigitChar_ne hdd 'n' (by decide))
            (isDigitChar_ne hdd 't' (by decide)) (isDigitChar_ne hdd 'f' (by decide))
            (isDigitChar_ne hdd '"' (by decide)) (isDigitChar_ne hdd '[' (by decide))
            (isDigitChar_ne hdd '{' (by decide))]
          rw [show d :: (l ++ rest) = (d :: l) ++ rest from rfl, ← hd]
          have := parseNumber_intDigits (.ofNat m) rest hnd
          rwa [show intDigits (.ofNat m) = natDigits m from rfl] at this
        | negSucc m =>
          rw [show intDigits (.negSucc m) = '-' :: natDigits (m + 1) from rfl, List.cons_append]
          rw [parseVal_succ_number f (by decide) (by decide) (by decide) (by decide) (by decide)
            (by decide) (by decide)]
          have := parseNumber_intDigits (.negSucc m) rest hnd
          rwa [show intDigits (.negSucc m) = '-' :: natDigits (m + 1) from rfl,
            List.cons_append] at this
      | str s =>
        rw [show dumpsC (.str s) ++ rest = '"' :: (escString s.data ++ '"' :: rest) from by
          rw [show dumpsC (.str s) = '"' :: (escString s.data ++ ['"']) from rfl]
          simp]
        rw [parseVal_succ_quote, parseStringBody_esc]
      | arr xs =>
        cases xs with
        | nil =>
          rw [show dumpsC (.arr []) ++ rest = '[' :: ']' :: rest from rfl]
          rw [parseVal_succ_lbracket, skipWs_cons_neg (by decide)]
          simp
        | cons x tl =>
          obtain ⟨t, ht⟩ := dumpsItems_cons_eq x tl
          obtain ⟨c, l, hc, hw, hne1, _⟩ := dumpsC_head x
          have hin : dumpsC (.arr (x :: tl)) ++ rest
              = '[' :: (dumpsItems (x :: tl) ++ ']' :: rest) := by
            rw [show dumpsC (.arr (x :: tl)) = '[' :: (dumpsItems (x :: tl) ++ [']']) from rfl]
            simp
          rw [hin, parseVal_succ_lbracket]
          have hcons : ∃ u, dumpsItems (x :: tl) ++ ']' :: rest = c :: u := by
            refine ⟨l ++ t ++ ']' :: rest, ?_⟩
            rw [ht, hc]
            simp
          obtain ⟨u, hu⟩ := hcons
          rw [hu, skipWs_cons_neg hw, List.head?_cons]
          rw [if_neg (fun hh => hne1 (Option.some.inj hh)), ← hu]
          have hsz : jsizeL (x :: tl) ≤ f := by
            rw [jsizeV] at hj
            omega
          rw [ihI (x :: tl) rest hsz (by simp)]
      | obj ms =>
        cases ms with
        | nil =>
          rw [show dumpsC (.obj []) ++ rest = '{' :: '}' :: rest from rfl]
          rw [parseVal_succ_lbrace, skipWs_cons_neg (by decide)]
          simp
        | cons m tl =>
          obtain ⟨k, v⟩ := m
          have hstart : ∃ u, dumpsMembers ((k, v) :: tl) = '"' :: u := by
            cases tl with
            | nil => exact ⟨escString k.data ++ '"' :: ':' :: ' ' :: dumpsC v, rfl⟩
            | cons m' tl' =>
              exact ⟨(escString k.data ++ '"' :: ':' :: ' ' :: dumpsC v) ++
                ',' :: ' ' :: dumpsMembers (m' :: tl'), rfl⟩
          obtain ⟨u, hu⟩ := hstart
          have hin : dumpsC (.obj ((k, v) :: tl)) ++ rest
              = '{' :: (dumpsMembers ((k, v) :: tl) ++ '}' :: rest) := by
            rw [show dumpsC (.obj ((k, v) :: tl))
              = '{' :: (dumpsMembers ((k, v) :: tl) ++ ['}']) from rfl]
            simp
          rw [hin, parseVal_succ_lbrace]
          have hu2 : dumpsMembers ((k, v) :: tl) ++ '}' :: rest = '"' :: (u ++ '}' :: rest) := by
            rw [hu]
            simp
          rw [hu2, skipWs_cons_neg (by decide), List.head?_cons]
          rw [if_neg (by decide), ← hu2]
          have hsz : jsizeM ((k, v) :: tl) ≤ f := by
            rw [jsizeV] at hj
            omega
          rw [ihM ((k, v) :: tl) rest hsz (by simp)]
    · intro xs rest hx hne
      match xs with
      | [x] =>
        have hsz : jsizeV x ≤ f := by
          rw [jsizeL, jsizeL] at hx
          omega
        have hv : parseVal f (dumpsC x ++ ']' :: rest) = some (x, ']' :: rest) :=
          ihV x (']' :: rest) hsz (numDelim_rbracket rest)
        rw [show dumpsItems [x] = dumpsC x from rfl, parseItems, hv]
        simp [skipWs, isWs]
      | x :: y :: tl =>
        have hposL := jsizeL_pos (y :: tl)
        have hposV := jsizeV_pos x
        have hszx : jsizeV x ≤ f := by
          rw [jsizeL] at hx
          omega
        have hszl : jsizeL (y :: tl) ≤ f := by
          rw [jsizeL] at hx
          omega
        have hin : dumpsItems (x :: y :: tl) ++ ']' :: rest
            = dumpsC x ++ (',' :: ' ' :: (dumpsItems (y :: tl) ++ ']' :: rest)) := by
          rw [show dumpsItems (x :: y :: tl)
            = dumpsC x ++ ',' :: ' ' :: dumpsItems (y :: tl) from rfl]
          simp
        have hv : parseVal f (dumpsC x ++ (',' :: ' ' :: (dumpsItems (y :: tl) ++ ']' :: rest)))
            = some (x, ',' :: ' ' :: (dumpsItems (y :: tl) ++ ']' :: rest)) :=
          ihV x _ hszx (numDelim_comma _)
        rw [parseItems, hin, hv]
        simp only [skipWs_cons_neg (by decide : isWs ',' = false), parseItems_space,
          ihI (y :: tl) rest hszl (by simp)]
    · intro ms rest hm hne
      match ms with
      | [(k, v)] =>
        have hsz : jsizeV v ≤ f := by
          rw [jsizeM, jsizeM] at hm
          omega
        have hin : dumpsMembers [(k, v)] ++ '}' :: rest
            = '"' :: (escString k.data ++ '"' :: (':' :: ' ' :: (dumpsC v ++ '}' :: rest))) := by
          rw [show dumpsMembers [(k, v)]
            = '"' :: (escString k.data ++ '"' :: ':' :: ' ' :: dumpsC v) from rfl]
          simp
        have hv : parseVal f (dumpsC v ++ '}' :: rest) = some (v, '}' :: rest) :=
          ihV v _ hsz (numDelim_rbrace rest)
        rw [parseMembers, hin, skipWs_cons_neg (by decide)]
        simp only [parseStringBody_esc, skipWs_cons_neg (by decide : isWs ':' = false),
          parseVal_space, hv, skipWs_cons_neg (by decide : isWs '}' = false)]
        simp
      | (k, v) :: m' :: tl =>
        have hposM := jsizeM_pos (m' :: tl)
        have hposV := jsizeV_pos v
        have hszv : jsizeV v ≤ f := by
          rw [jsizeM] at hm
          omega
        have hszm : jsizeM (m' :: tl) ≤ f := by
          rw [jsizeM] at hm
          omega
        have hin : dumpsMembers ((k, v) :: m' :: tl) ++ '}' :: rest
            = '"' :: (escString k.data ++ '"' :: (':' :: ' ' ::
                (dumpsC v ++ ',' :: ' ' :: (dumpsMembers (m' :: tl) ++ '}' :: rest)))) := by
          rw [show dumpsMembers ((k, v) :: m' :: tl)
            = ('"' :: (escString k.data ++ '"' :: ':' :: ' ' :: dumpsC v)) ++
              ',' :: ' ' :: dumpsMembers (m' :: tl) from rfl]
          simp
        have hv : parseVal f (dumpsC v ++ ',' :: ' ' :: (dumpsMembers (m' :: tl) ++ '}' :: rest))
            = some (v, ',' :: ' ' :: (dumpsMembers (m' :: tl) ++ '}' :: rest)) :=
          ihV v _ hszv (numDelim_comma _)
        rw [parseMembers, hin, skipWs_cons_neg (by decide)]
        simp only [parseStringBody_esc, skipWs_cons_neg (by decide : isWs ':' = false),
          parseVal_space, hv, skipWs_cons_neg (by decide : isWs ',' = false),
          parseMembers_space, ihM (m' :: tl) rest hszm (by simp)]
        simp

theorem jsize_le_len (n : Nat) :
    (∀ j, jsizeV j ≤ n → jsizeV j ≤ (dumpsC j).length) ∧
    (∀ xs, jsizeL xs ≤ n → jsizeL xs ≤ (dumpsItems xs).length + 1) ∧
    (∀ ms, jsizeM ms ≤ n → jsizeM ms ≤ (dumpsMembers ms).length + 1) := by
  induction n with
  | zero =>
    refine ⟨?_, ?_, ?_⟩
    · intro j hj; exact absurd hj (by have := jsizeV_pos j; omega)
    · intro xs hx; exact absurd hx (by have := jsizeL_pos xs; omega)
    · intro ms hm; exact absurd hm (by have := jsizeM_pos ms; omega)
  | succ m ih =>
    obtain ⟨ihV, ihI, ihM⟩ := ih
    refine ⟨?_, ?_, ?_⟩
    · intro j hj
      cases j with
      | null => decide
      | bool b => cases b <;> decide
      | num i =>
        have h1 : jsizeV (.num i) = 1 := rfl
        rw [h1]
        have : 0 < (dumpsC (.num i)).length := by
          rw [show dumpsC (.num i) = intDigits i from rfl]
          cases i with
          | ofNat k =>
            rw [intDigits]
            exact List.length_pos.mpr (natDigits_ne_nil k)
          | negSucc k => simp [intDigits]
        omega
      | str s =>
        have h1 : jsizeV (.str s) = 1 := rfl
        rw [h1, show dumpsC (.str s) = '"' :: (escString s.data ++ ['"']) from rfl]
        simp
      | arr xs =>
        rw [jsizeV] at hj ⊢
        have hx := ihI xs (by omega)
        rw [show dumpsC (.arr xs) = '[' :: (dumpsItems xs ++ [']']) from rfl]
        simp only [List.length_cons, List.length_append, List.length_singleton]
        omega
      | obj ms =>
        rw [jsizeV] at hj ⊢
        have hx := ihM ms (by omega)
        rw [show dumpsC (.obj ms) = '{' :: (dumpsMembers ms ++ ['}']) from rfl]
        simp only [List.length_cons, List.length_append, List.length_singleton]
        omega
    · intro xs hx
      match xs with
      | [] => simp [jsizeL, dumpsItems]
      | [x] =>
        rw [jsizeL, jsizeL] at hx ⊢
        have hb := ihV x (by omega)
        rw [show dumpsItems [x] = dumpsC x from rfl]
        omega
      | x :: y :: tl =>
        have hpL := jsizeL_pos (y :: tl)
        have hpV := jsizeV_pos x
        rw [jsizeL] at hx ⊢
        have hb1 := ihV x (by omega)
        have hb2 := ihI (y :: tl) (by omega)
        rw [show dumpsItems (x :: y :: tl)
          = dumpsC x ++ ',' :: ' ' :: dumpsItems (y :: tl) from rfl]
        simp only [List.length_append, List.length_cons]
        omega
    · intro ms hm
      match ms with
      | [] => simp [jsizeM, dumpsMembers]
      | [(k, v)] =>
        rw [jsizeM, jsizeM] at hm ⊢
        have hb := ihV v (by omega)
        rw [show dumpsMembers [(k, v)]
          = '"' :: (escString k.data ++ '"' :: ':' :: ' ' :: dumpsC v) from rfl]
        simp only [List.length_cons, List.length_append]
        omega
      | (k, v) :: m' :: tl =>
        have hpM := jsizeM_pos (m' :: tl)
        have hpV := jsizeV_pos v
        rw [jsizeM] at hm ⊢
        have hb1 := ihV v (by omega)
        have hb2 := ihM (m' :: tl) (by omega)
        rw [show dumpsMembers ((k, v) :: m' :: tl)
          = ('"' :: (escString k.data ++ '"' :: ':' :: ' ' :: dumpsC v)) ++
            ',' :: ' ' :: dumpsMembers (m' :: tl) from rfl]
        simp only [List.length_append, List.length_cons]
        omega

theorem jsizeV_le_dumps_len (j : Json) : jsizeV j ≤ (dumpsC j).length :=
  (jsize_le_len (jsizeV j)).1 j (Nat.le_refl _)

theorem loads_dumps (j : Json) : loads (dumps j) = some j := by
  rw [loads]
  have hfuel : jsizeV j ≤ (dumpsC j).length + 1 :=
    Nat.le_trans (jsizeV_le_dumps_len j) (Nat.le_succ _)
  have h := (parse_dumps ((dumpsC j).length + 1)).1 j [] hfuel numDelim_nil
  rw [List.append_nil] at h
  rw [show (dumps j).data = dumpsC j from rfl, h]
  simp [skipWs]

/-! ## Collection loop lemmas -/

theorem writeEvent_fields (b e h : String) (st : CollectState) (ev : Json) :
    (writeEvent b e h st ev).total_logs = st.total_logs + 1 ∧
    (writeEvent b e h st ev).writes = st.writes ++ [(h, dumps ev ++ "\n")] ∧
    (writeEvent b e h st ev).requests = st.requests ∧
    (writeEvent b e h st ev).opens = st.opens := by
  simp only [writeEvent]
  split
  · exact ⟨rfl, rfl, rfl, rfl⟩
  · exact ⟨rfl, rfl, rfl, rfl⟩

theorem foldl_writeEvent_fields (b e h : String) :
    ∀ (evs : List Json) (st : CollectState),
      ((evs.foldl (writeEvent b e h) st).total_logs = st.total_logs + evs.length) ∧
      ((evs.foldl (writeEvent b e h) st).writes
        = st.writes ++ evs.map (fun ev => (h, dumps ev ++ "\n"))) ∧
      ((evs.foldl (writeEvent b e h) st).requests = st.requests) ∧
      ((evs.foldl (writeEvent b e h) st).opens = st.opens) := by
  intro evs
  induction evs with
  | nil => intro st; simp
  | cons ev tl ih =>
    intro st
    rw [List.foldl_cons]
    obtain ⟨i1, i2, i3, i4⟩ := ih (writeEvent b e h st ev)
    obtain ⟨s1, s2, s3, s4⟩ := writeEvent_fields b e h st ev
    refine ⟨?_, ?_, ?_, ?_⟩
    · rw [i1, s1, List.length_cons]; omega
    · rw [i2, s2]; simp
    · rw [i3, s3]
    · rw [i4, s4]

theorem processContent_skip (b e tok : String) (fetch : String → List Json)
    (st : CollectState) {c : ContentEntry} (h : c.contentUri = none) :
    processContent b e tok fetch st c = st := by
  simp [processContent, h]

theorem processContent_skip_empty (b e tok : String) (fetch : String → List Json)
    (st : CollectState) {c : ContentEntry} {u : String} (h : c.contentUri = some u)
    (hu : u.data.isEmpty = true) :
    processContent b e tok fetch st c = st := by
  simp [processContent, h, hu]

theorem processContent_count (b e tok : String) (fetch : String → List Json)
    (st : CollectState) (c : ContentEntry) :
    ((processContent b e tok fetch st c).total_logs = st.total_logs +
      (match c.contentUri with
       | none => 0
       | some uri => if uri.data.isEmpty then 0 else (fetch uri).length)) ∧
    ((processContent b e tok fetch st c).writes.length = st.writes.length +
      (match c.contentUri with
       | none => 0
       | some uri => if uri.data.isEmpty then 0 else (fetch uri).length)) := by
  match hc : c.contentUri with
  | none =>
    rw [processContent_skip b e tok fetch st hc]
    simp
  | some uri =>
    by_cases hu : uri.data.isEmpty = true
    · rw [processContent_skip_empty b e tok fetch st hc hu]
      simp [hu]
    · have hu' : uri.data.isEmpty = false := by
        cases h2 : uri.data.isEmpty
        · rfl
        · exact absurd h2 hu
      simp only [processContent, hc, hu', Bool.false_eq_true, if_false]
      constructor
      · rw [(foldl_writeEvent_fields b e st.current_file_name (fetch uri) _).1]
      · rw [(foldl_writeEvent_fields b e st.current_file_name (fetch uri) _).2.1]
        simp

theorem foldl_processContent_count (b e tok : String) (fetch : String → List Json) :
    ∀ (cl : List ContentEntry) (st : CollectState),
      ((cl.foldl (processContent b e tok fetch) st).total_logs
          = st.total_logs + expected_total fetch cl) ∧
      ((cl.foldl (processContent b e tok fetch) st).writes.length
          = st.writes.length + expected_total fetch cl) := by
  intro cl
  induction cl with
  | nil => intro st; simp [expected_total]
  | cons c tl ih =>
    intro st
    rw [List.foldl_cons]
    obtain ⟨i1, i2⟩ := ih (processContent b e tok fetch st c)
    obtain ⟨s1, s2⟩ := processContent_count b e tok fetch st c
    have he : expected_total fetch (c :: tl) =
        (match c.contentUri with
         | none => 0
         | some uri => if uri.data.isEmpty then 0 else (fetch uri).length) +
          expected_total fetch tl := by
      simp [expected_total]
    refine ⟨?_, ?_⟩
    · rw [i1, s1, he]; omega
    · rw [i2, s2, he]; omega

theorem foldl_processContent_skip (b e tok : String) (fetch : String → List Json) :
    ∀ (cl : List ContentEntry) (st : CollectState),
      (∀ c ∈ cl, ∀ u, c.contentUri = some u → u.data.isEmpty = true) →
      cl.foldl (processContent b e tok fetch) st = st := by
  intro cl
  induction cl with
  | nil => intro st _; rfl
  | cons c tl ih =>
    intro st h
    rw [List.foldl_cons]
    have hstep : processContent b e tok fetch st c = st := by
      match hc : c.contentUri with
      | none => exact processContent_skip b e tok fetch st hc
      | some u =>
        exact processContent_skip_empty b e tok fetch st hc
          (h c (List.mem_cons_self c tl) u hc)
    rw [hstep]
    exact ih st (fun c' hc' => h c' (List.mem_cons_of_mem c hc'))

theorem foldl_preserve {α β : Type} (f : α → β → α) (P : α → Prop)
    (hf : ∀ a b, P a → P (f a b)) : ∀ (l : List β) (a : α), P a → P (l.foldl f a) := by
  intro l
  induction l with
  | nil => intro a ha; exact ha
  | cons x tl ih => intro a ha; exact ih (f a x) (hf a x ha)

theorem writeEvent_sizeInv (b e h : String) (st : CollectState) (ev : Json)
    (hI : SizeInv st) : SizeInv (writeEvent b e h st ev) := by
  obtain ⟨es, h1, h2⟩ := hI
  simp only [writeEvent]
  split
  · exact ⟨[], rfl, List.nil_suffix⟩
  · refine ⟨es ++ [ev], ?_, ?_⟩
    · simp only [List.map_append, List.sum_append, List.map_cons, List.map_nil,
        List.sum_cons, List.sum_nil]
      omega
    · simp only [List.map_append, List.map_cons, List.map_nil]
      obtain ⟨pre, hpre⟩ := h2
      refine ⟨pre, ?_⟩
      rw [← List.append_assoc, hpre]

theorem processContent_sizeInv (b e tok : String) (fetch : String → List Json)
    (st : CollectState) (c : ContentEntry) (hI : SizeInv st) :
    SizeInv (processContent b e tok fetch st c) := by
  match hc : c.contentUri with
  | none => rw [processContent_skip b e tok fetch st hc]; exact hI
  | some uri =>
    by_cases hu : uri.data.isEmpty = true
    · rw [processContent_skip_empty b e tok fetch st hc hu]; exact hI
    · have hu' : uri.data.isEmpty = false := by
        cases h2 : uri.data.isEmpty
        · rfl
        · exact absurd h2 hu
      simp only [processContent, hc, hu', Bool.false_eq_true, if_false]
      apply foldl_preserve (writeEvent b e st.current_file_name) SizeInv
        (fun a ev ha => writeEvent_sizeInv b e st.current_file_name a ev ha)
      obtain ⟨es, h1, h2⟩ := hI
      exact ⟨es, h1, h2⟩

theorem collect_logs_sizeInv (tok tid sd ed b x : String) (fetch : String → List Json)
    (cl : List ContentEntry) : SizeInv (collect_logs tok tid sd ed b x fetch cl) := by
  rw [collect_logs]
  apply foldl_preserve (processContent b x tok fetch) SizeInv
    (fun a c ha => processContent_sizeInv b x tok fetch a c ha)
  exact ⟨[], rfl, List.nil_suffix⟩

theorem processContent_prov (b e tok : String) (fetch : String → List Json)
    (st : CollectState) (c : ContentEntry) :
    ∀ w ∈ (processContent b e tok fetch st c).writes, w ∈ st.writes ∨
      ∃ uri ev, c.contentUri = some uri ∧ ev ∈ fetch uri ∧ w.2 = dumps ev ++ "\n" := by
  intro w hw
  match hc : c.contentUri with
  | none =>
    rw [processContent_skip b e tok fetch st hc] at hw
    exact Or.inl hw
  | some uri =>
    by_cases hu : uri.data.isEmpty = true
    · rw [processContent_skip_empty b e tok fetch st hc hu] at hw
      exact Or.inl hw
    · have hu' : uri.data.isEmpty = false := by
        cases h2 : uri.data.isEmpty
        · rfl
        · exact absurd h2 hu
      simp only [processContent, hc, hu', Bool.false_eq_true, if_false] at hw
      rw [(foldl_writeEvent_fields b e st.current_file_name (fetch uri) _).2.1] at hw
      rcases List.mem_append.mp hw with h | h
      · exact Or.inl h
      · obtain ⟨ev, hev, hw2⟩ := List.mem_map.mp h
        exact Or.inr ⟨uri, ev, rfl, hev, by rw [← hw2]⟩

theorem foldl_processContent_prov (b e tok : String) (fetch : String → List Json)
    (cl0 : List ContentEntry) :
    ∀ (cl : List ContentEntry) (st : CollectState), (∀ c ∈ cl, c ∈ cl0) →
      (∀ w ∈ st.writes, WriteProv fetch cl0 w) →
      ∀ w ∈ (cl.foldl (processContent b e tok fetch) st).writes, WriteProv fetch cl0 w := by
  intro cl
  induction cl with
  | nil => intro st _ hst w hw; exact hst w hw
  | cons c tl ih =>
    intro st hsub hst w hw
    rw [List.foldl_cons] at hw
    refine ih (processContent b e tok fetch st c)
      (fun c' hc' => hsub c' (List.mem_cons_of_mem c hc')) ?_ w hw
    intro w' hw'
    rcases processContent_prov b e tok fetch st c w' hw' with h | ⟨uri, ev, h1, h2, h3⟩
    · exact hst w' h
    · exact ⟨c, hsub c (List.mem_cons_self c tl), uri, ev, h1, h2, h3⟩

theorem collect_writes_prov (tok tid sd ed b x : String) (fetch : String → List Json)
    (cl : List ContentEntry) :
    ∀ w ∈ (collect_logs tok tid sd ed b x fetch cl).writes, WriteProv fetch cl w := by
  rw [collect_logs]
  refine foldl_processContent_prov b x tok fetch cl cl _ (fun c hc => hc) ?_
  intro w hw
  simp at hw

theorem escChar_a : escChar 'a' = ['a'] := by decide

theorem escString_replicate_a (n : Nat) :
    escString (List.replicate n 'a') = List.replicate n 'a' := by
  induction n with
  | zero => rfl
  | succ m ih => rw [List.replicate_succ, escString, escChar_a, ih]; rfl

theorem dumpsC_repA (n : Nat) :
    dumpsC (.str ⟨List.replicate n 'a'⟩) = '"' :: (List.replicate n 'a' ++ ['"']) := by
  rw [show dumpsC (.str ⟨List.replicate n 'a'⟩)
    = '"' :: (escString (List.replicate n 'a') ++ ['"']) from rfl, escString_replicate_a]

theorem dumps_repA_len (n : Nat) :
    (dumps (.str ⟨List.replicate n 'a'⟩)).length = n + 2 := by
  rw [show (dumps (.str ⟨List.replicate n 'a'⟩)).length
    = (dumpsC (.str ⟨List.replicate n 'a'⟩)).length from rfl, dumpsC_repA]
  simp

theorem utf8Size_a : Char.utf8Size 'a' = 1 := by decide

theorem utf8Len_eq_sum (cs : List Char) : String.utf8Len cs = (cs.map Char.utf8Size).sum := by
  induction cs with
  | nil => rfl
  | cons c tl ih => simp [ih]; omega

theorem dumps_repA_utf8 (n : Nat) :
    (dumps (.str ⟨List.replicate n 'a'⟩)).utf8ByteSize = n + 2 := by
  rw [show dumps (.str ⟨List.replicate n 'a'⟩)
    = ⟨dumpsC (.str ⟨List.replicate n 'a'⟩)⟩ from rfl, dumpsC_repA]
  rw [String.utf8ByteSize_mk, utf8Len_eq_sum]
  simp [List.map_replicate, utf8Size_a]
  have hq : Char.utf8Size '"' = 1 := by decide
  omega

theorem line_repA_utf8 (n : Nat) :
    (dumps (.str ⟨List.replicate n 'a'⟩) ++ "\n").utf8ByteSize = n + 3 := by
  rw [show dumps (.str ⟨List.replicate n 'a'⟩) ++ "\n"
    = ⟨dumpsC (.str ⟨List.replicate n 'a'⟩) ++ ['\n']⟩ from rfl, dumpsC_repA]
  rw [String.utf8ByteSize_mk, utf8Len_eq_sum]
  simp [List.map_replicate, utf8Size_a]
  have hq : Char.utf8Size '"' = 1 := by decide
  have hn : Char.utf8Size '\n' = 1 := by decide
  omega

theorem writeEvent_rotates (b e h : String) (st : CollectState) (ev : Json)
    (hbig : MAX_FILE_SIZE_MB * 1024 * 1024 < st.current_file_size + (dumps ev).length + 1) :
    writeEvent b e h st ev =
      { st with
        writes := st.writes ++ [(h, dumps ev ++ "\n")],
        total_logs := st.total_logs + 1,
        file_index := st.file_index + 1,
        current_file_name := get_new_file_name b e (st.file_index + 1),
        current_file_size := 0 } := by
  simp only [writeEvent]
  rw [if_pos hbig]

theorem writeEvent_keeps (b e h : String) (st : CollectState) (ev : Json)
    (hsmall : ¬ MAX_FILE_SIZE_MB * 1024 * 1024 < st.current_file_size + (dumps ev).length + 1) :
    writeEvent b e h st ev =
      { st with
        writes := st.writes ++ [(h, dumps ev ++ "\n")],
        total_logs := st.total_logs + 1,
        current_file_size := st.current_file_size + (dumps ev).length + 1 } := by
  simp only [writeEvent]
  rw [if_neg hsmall]

theorem dumps_huge_len :
    (dumps hugeEvent).length = MAX_FILE_SIZE_MB * 1024 * 1024 + 2 :=
  dumps_repA_len _

theorem dumps_huge_utf8 :
    (dumps hugeEvent).utf8ByteSize = MAX_FILE_SIZE_MB * 1024 * 1024 + 2 :=
  dumps_repA_utf8 _

theorem line_huge_utf8 :
    (dumps hugeEvent ++ "\n").utf8ByteSize = MAX_FILE_SIZE_MB * 1024 * 1024 + 3 :=
  line_repA_utf8 _

theorem runC1_writes :
    runC1.writes =
      [(get_new_file_name EVENT_OUTPUT_FILE_BASE EVENT_OUTPUT_FILE_EXTENSION 0,
        dumps hugeEvent ++ "\n"),
       (get_new_file_name EVENT_OUTPUT_FILE_BASE EVENT_OUTPUT_FILE_EXTENSION 0,
        dumps hugeEvent ++ "\n"),
       (get_new_file_name EVENT_OUTPUT_FILE_BASE EVENT_OUTPUT_FILE_EXTENSION 0,
        dumps hugeEvent ++ "\n")] := by
  rw [runC1, collect_logs]
  rw [List.foldl_cons, List.foldl_nil, processContent]
  simp only []
  rw [if_neg (by decide)]
  rw [(foldl_writeEvent_fields _ _ _ _ _).2.1]
  simp

theorem runC2_state :
    runC2.file_index = 1 ∧
    runC2.current_file_name
      = get_new_file_name EVENT_OUTPUT_FILE_BASE EVENT_OUTPUT_FILE_EXTENSION 1 ∧
    runC2.writes =
      [(get_new_file_name EVENT_OUTPUT_FILE_BASE EVENT_OUTPUT_FILE_EXTENSION 0,
        dumps hugeEvent ++ "\n"),
       (get_new_file_name EVENT_OUTPUT_FILE_BASE EVENT_OUTPUT_FILE_EXTENSION 0,
        dumps (.num 1) ++ "\n")] := by
  refine ⟨?_, ?_, ?_⟩
  · rw [runC2, collect_logs]
    rw [List.foldl_cons, List.foldl_nil, processContent]
    simp only []
    rw [if_neg (by decide)]
    rw [List.foldl_cons, List.foldl_cons, List.foldl_nil]
    nth_rewrite 2 [writeEvent_rotates _ _ _ _ _ (by rw [dumps_huge_len]; omega)]
    rw [writeEvent_keeps _ _ _ _ _ (by
      rw [show (dumps (.num 1)).length = 1 from rfl]
      simp [MAX_FILE_SIZE_MB])]
  · rw [runC2, collect_logs]
    rw [List.foldl_cons, List.foldl_nil, processContent]
    simp only []
    rw [if_neg (by decide)]
    rw [List.foldl_cons, List.foldl_cons, List.foldl_nil]
    nth_rewrite 2 [writeEvent_rotates _ _ _ _ _ (by rw [dumps_huge_len]; omega)]
    rw [writeEvent_keeps _ _ _ _ _ (by
      rw [show (dumps (.num 1)).length = 1 from rfl]
      simp [MAX_FILE_SIZE_MB])]
  · rw [runC2, collect_logs]
    rw [List.foldl_cons, List.foldl_nil, processContent]
    simp only []
    rw [if_neg (by decide)]
    rw [List.foldl_cons, List.foldl_cons, List.foldl_nil]
    nth_rewrite 2 [writeEvent_rotates _ _ _ _ _ (by rw [dumps_huge_len]; omega)]
    rw [writeEvent_keeps _ _ _ _ _ (by
      rw [show (dumps (.num 1)).length = 1 from rfl]
      simp [MAX_FILE_SIZE_MB])]
    simp

/-! ## Requests issued by a run -/

theorem processContent_requests (b e tok : String) (fetch : String → List Json)
    (st : CollectState) (c : ContentEntry) :
    ∀ r ∈ (processContent b e tok fetch st c).requests, r ∈ st.requests ∨
      ∃ uri, c.contentUri = some uri ∧
        r = { method := .get, url := uri, params := [], bearer := some tok,
              timeout := some REQUEST_TIMEOUT } := by
  intro r hr
  match hc : c.contentUri with
  | none =>
    rw [processContent_skip b e tok fetch st hc] at hr
    exact Or.inl hr
  | some uri =>
    by_cases hu : uri.data.isEmpty = true
    · rw [processContent_skip_empty b e tok fetch st hc hu] at hr
      exact Or.inl hr
    · have hu' : uri.data.isEmpty = false := by
        cases h2 : uri.data.isEmpty
        · rfl
        · exact absurd h2 hu
      simp only [processContent, hc, hu', Bool.false_eq_true, if_false] at hr
      rw [(foldl_writeEvent_fields b e st.current_file_name (fetch uri) _).2.2.1] at hr
      rcases List.mem_append.mp hr with h | h
      · exact Or.inl h
      · simp at h
        exact Or.inr ⟨uri, rfl, h⟩

theorem foldl_processContent_requests (b e tok : String) (fetch : String → List Json)
    (cl0 : List ContentEntry) (P : HttpRequest → Prop)
    (hnew : ∀ c ∈ cl0, ∀ uri, c.contentUri = some uri →
      P { method := .get, url := uri, params := [], bearer := some tok,
          timeout := some REQUEST_TIMEOUT }) :
    ∀ (cl : List ContentEntry) (st : CollectState), (∀ c ∈ cl, c ∈ cl0) →
      (∀ r ∈ st.requests, P r) →
      ∀ r ∈ (cl.foldl (processContent b e tok fetch) st).requests, P r := by
  intro cl
  induction cl with
  | nil => intro st _ hst r hr; exact hst r hr
  | cons c tl ih =>
    intro st hsub hst r hr
    rw [List.foldl_cons] at hr
    refine ih (processContent b e tok fetch st c)
      (fun c' hc' => hsub c' (List.mem_cons_of_mem c hc')) ?_ r hr
    intro r' hr'
    rcases processContent_requests b e tok fetch st c r' hr' with h | ⟨uri, h1, h2⟩
    · exact hst r' h
    · exact h2 ▸ hnew c (hsub c (List.mem_cons_self c tl)) uri h1

theorem collect_requests (tok tid sd ed b x : String) (fetch : String → List Json)
    (cl : List ContentEntry) :
    ∀ r ∈ (collect_logs tok tid sd ed b x fetch cl).requests,
      (r = { method := .get, url := listing_url tid,
             params := [("contentType", "Audit.AzureActiveDirectory"),
                        ("startTime", sd), ("endTime", ed)],
             bearer := some tok, timeout := some REQUEST_TIMEOUT }) ∨
      (∃ c ∈ cl, ∃ uri, c.contentUri = some uri ∧
        r = { method := .get, url := uri, params := [], bearer := some tok,
              timeout := some REQUEST_TIMEOUT }) := by
  rw [collect_logs]
  refine foldl_processContent_requests b x tok fetch cl _
    (fun c hc uri hu => Or.inr ⟨c, hc, uri, hu, rfl⟩) cl _ (fun c hc => hc) ?_
  intro r hr
  simp at hr
  exact Or.inl hr

theorem collect_requests_timeout (tok tid sd ed b x : String) (fetch : String → List Json)
    (cl : List ContentEntry) :
    ∀ r ∈ (collect_logs tok tid sd ed b x fetch cl).requests,
      r.timeout = some REQUEST_TIMEOUT := by
  intro r hr
  rcases collect_requests tok tid sd ed b x fetch cl r hr with h | ⟨_, _, _, _, h⟩
  · rw [h]
  · rw [h]

/-! ## Retry configuration lemmas -/

theorem isPrefixOf_self_append : ∀ p t : List Char, List.isPrefixOf p (p ++ t) = true := by
  intro p t
  induction p with
  | nil => simp
  | cons c cs ih => simp [List.isPrefixOf, ih]

theorem isPrefixOf_append_of (p : List Char) :
    ∀ l t, List.isPrefixOf p l = true → List.isPrefixOf p (l ++ t) = true := by
  induction p with
  | nil => intro l t _; simp
  | cons c ps ih =>
    intro l t h
    cases l with
    | nil => exact absurd h (by simp [List.isPrefixOf])
    | cons d ds =>
      simp only [List.cons_append, List.isPrefixOf_cons₂, Bool.and_eq_true] at h ⊢
      exact ⟨h.1, ih ds t h.2⟩

theorem token_url_https (tenant_id : String) :
    List.isPrefixOf "https://".data (token_url tenant_id).data = true := by
  rw [token_url]
  rw [show ("https://login.microsoftonline.com/" ++ tenant_id ++ "/oauth2/v2.0/token").data
    = ("https://login.microsoftonline.com/".data ++ tenant_id.data) ++ "/oauth2/v2.0/token".data
    from rfl]
  apply isPrefixOf_append_of
  apply isPrefixOf_append_of
  decide

theorem listing_url_https (tenant_id : String) :
    List.isPrefixOf "https://".data (listing_url tenant_id).data = true := by
  rw [listing_url]
  rw [show ("https://manage.office.com/api/v1.0/" ++ tenant_id
      ++ "/activity/feed/subscriptions/content").data
    = ("https://manage.office.com/api/v1.0/".data ++ tenant_id.data)
      ++ "/activity/feed/subscriptions/content".data from rfl]
  apply isPrefixOf_append_of
  apply isPrefixOf_append_of
  decide

theorem retryExec_error_all (fl : List Nat) (responses : Nat → Nat) :
    ∀ n a s, retryExec fl responses a n = .error s →
      ∀ j, a ≤ j → j ≤ a + n → responses j ∈ fl := by
  intro n
  induction n with
  | zero =>
    intro a s h j h1 h2
    have hj : j = a := by omega
    subst hj
    by_cases hm : responses j ∈ fl
    · exact hm
    · rw [retryExec, if_neg hm] at h
      exact absurd h (by simp)
  | succ m ih =>
    intro a s h j h1 h2
    by_cases hm : responses a ∈ fl
    · rw [retryExec, if_pos hm] at h
      by_cases hj : j = a
      · exact hj ▸ hm
      · exact ih (a + 1) s h j (by omega) (by omega)
    · rw [retryExec, if_neg hm] at h
      exact absurd h (by simp)

theorem retryExec_ok_first (fl : List Nat) (responses : Nat → Nat) :
    ∀ k n a, k ≤ n → (∀ j, a ≤ j → j < a + k → responses j ∈ fl) →
      responses (a + k) ∉ fl → retryExec fl responses a n = .ok (responses (a + k)) := by
  intro k
  induction k with
  | zero =>
    intro n a _ _ hnot
    rw [Nat.add_zero] at hnot ⊢
    cases n with
    | zero => rw [retryExec, if_neg (by simpa using hnot)]
    | succ n' => rw [retryExec, if_neg (by simpa using hnot)]
  | succ m ih =>
    intro n a hk hall hnot
    match n with
    | n' + 1 =>
      have hm : responses a ∈ fl := hall a (Nat.le_refl a) (by omega)
      rw [retryExec, if_pos hm]
      have := ih n' (a + 1) (by omega) (fun j hj1 hj2 => hall j (by omega) (by omega))
        (by rw [show a + 1 + m = a + (m + 1) from by omega]; exact hnot)
      rw [this, show a + 1 + m = a + (m + 1) from by omega]

/-- Claim C1: the total bytes written to one output file index should
never exceed the 500 MiB threshold by more than one serialized record plus
its newline.  The code violates this: in runC1 one content batch holds
three oversized records; the rotation bookkeeping advances, but the batch
keeps writing through the handle opened before the loop, so file index 0
receives all three records and exceeds the threshold by more than one
record. -/
theorem claim_C1_code_divergence :
    MAX_FILE_SIZE_MB * 1024 * 1024 + ((dumps hugeEvent).utf8ByteSize + 1)
      < fileBytes runC1.writes
          (get_new_file_name EVENT_OUTPUT_FILE_BASE EVENT_OUTPUT_FILE_EXTENSION 0) ∧
    (∀ w ∈ runC1.writes, w.2 = dumps hugeEvent ++ "\n") := by
  constructor
  · rw [runC1_writes, fileBytes]
    simp only [List.map_cons, List.map_nil, List.sum_cons, List.sum_nil, if_pos,
      line_huge_utf8, dumps_huge_utf8, reduceIte]
    omega
  · rw [runC1_writes]
    intro w hw
    simp only [List.mem_cons, List.not_mem_nil, or_false] at hw
    rcases hw with h | h | h <;> rw [h]

/-- Claim C2: after a write pushes the counter over the threshold the file
index is incremented, the new name is computed and the counter is reset,
but the very next event of the same batch is NOT written to the new file:
in runC2 the rotation happens after the first event, yet the second write
still lands in the index-0 file, while current_file_name already points at
the index-1 file. -/
theorem claim_C2_code_divergence :
    runC2.file_index = 1 ∧
    runC2.current_file_name
      = get_new_file_name EVENT_OUTPUT_FILE_BASE EVENT_OUTPUT_FILE_EXTENSION 1 ∧
    runC2.writes.map Prod.fst =
      [get_new_file_name EVENT_OUTPUT_FILE_BASE EVENT_OUTPUT_FILE_EXTENSION 0,
       get_new_file_name EVENT_OUTPUT_FILE_BASE EVENT_OUTPUT_FILE_EXTENSION 0] ∧
    get_new_file_name EVENT_OUTPUT_FILE_BASE EVENT_OUTPUT_FILE_EXTENSION 0
      ≠ get_new_file_name EVENT_OUTPUT_FILE_BASE EVENT_OUTPUT_FILE_EXTENSION 1 := by
  obtain ⟨h1, h2, h3⟩ := runC2_state
  refine ⟨h1, h2, ?_, by decide⟩
  rw [h3]
  rfl

/-- Claim C3: collect returns the total event count, the sum over the
listing entries with a usable content URI of the number of events fetched
for them, and that counter grows by exactly one per written event (the
total always equals the number of write operations recorded). -/
theorem claim_C3_total_count (token tenant_id start_dt end_dt base ext : String)
    (fetch : String → List Json) (content_list : List ContentEntry) :
    (collect_logs token tenant_id start_dt end_dt base ext fetch content_list).total_logs
      = expected_total fetch content_list ∧
    (collect_logs token tenant_id start_dt end_dt base ext fetch content_list).total_logs
      = (collect_logs token tenant_id start_dt end_dt base ext fetch content_list).writes.length := by
  constructor
  · rw [collect_logs, (foldl_processContent_count _ _ _ _ _ _).1]
    simp
  · rw [collect_logs, (foldl_processContent_count _ _ _ _ _ _).1,
      (foldl_processContent_count _ _ _ _ _ _).2]
    simp

/-- Claim C4 (amended): the retry configuration built by
get_session_with_retries (5 retries, backoff factor 1, statuses 429, 500,
502, 503, 504) applies to every request whose URL uses the https scheme:
the token POST and the listing GET always, and a content fetch whenever
its URI is https (the adapter is mounted for the https prefix only, so a
non-https content URI is served without retries); a transient status
surfaces as a failure only when the retries are exhausted. -/
theorem claim_C4_amended :
    (∀ tenant_id : String, get_session_with_retries.retryFor (token_request tenant_id).url
        = some { total := 5, backoff_factor := 1,
                 status_forcelist := [429, 500, 502, 503, 504] }) ∧
    (∀ tenant_id : String, get_session_with_retries.retryFor (listing_url tenant_id)
        = some { total := 5, backoff_factor := 1,
                 status_forcelist := [429, 500, 502, 503, 504] }) ∧
    (∀ (tok tid sd ed b x : String) (fetch : String → List Json) (cl : List ContentEntry),
      ∀ r ∈ (collect_logs tok tid sd ed b x fetch cl).requests,
        List.isPrefixOf "https://".data r.url.data = true →
        get_session_with_retries.retryFor r.url
          = some { total := 5, backoff_factor := 1,
                   status_forcelist := [429, 500, 502, 503, 504] }) ∧
    (∀ responses : Nat → Nat, ∀ s : Nat,
      retryExec [429, 500, 502, 503, 504] responses 0 5 = .error s →
        ∀ j, j ≤ 5 → responses j ∈ [429, 500, 502, 503, 504]) ∧
    (∀ responses : Nat → Nat, ∀ k : Nat, k ≤ 5 →
      (∀ j, j < k → responses j ∈ [429, 500, 502, 503, 504]) →
      responses k ∉ [429, 500, 502, 503, 504] →
      retryExec [429, 500, 502, 503, 504] responses 0 5 = .ok (responses k)) := by
  refine ⟨?_, ?_, ?_, ?_, ?_⟩
  · intro tenant_id
    rw [show (token_request tenant_id).url = token_url tenant_id from rfl]
    rw [Session.retryFor, if_pos (token_url_https tenant_id)]
    rfl
  · intro tenant_id
    rw [Session.retryFor, if_pos (listing_url_https tenant_id)]
    rfl
  · intro tok tid sd ed b x fetch cl r _ hpre
    rw [Session.retryFor, if_pos hpre]
    rfl
  · intro responses s h j hj
    exact retryExec_error_all _ _ 5 0 s h j (Nat.zero_le j) (by omega)
  · intro responses k hk hall hnot
    have := retryExec_ok_first [429, 500, 502, 503, 504] responses k 5 0 hk
      (fun j h1 h2 => hall j (by omega)) (by simpa using hnot)
    simpa using this

theorem claim_C4_witness :
    (get_session_with_retries.retryFor (token_request "tenant").url
      = some { total := 5, backoff_factor := 1,
               status_forcelist := [429, 500, 502, 503, 504] }) ∧
    (get_session_with_retries.retryFor
        ({ method := .get, url := listing_url "tenant",
           params := [("contentType", "Audit.AzureActiveDirectory"),
                      ("startTime", "s"), ("endTime", "e")],
           bearer := some "tok", timeout := some REQUEST_TIMEOUT } : HttpRequest).url
      = some { total := 5, backoff_factor := 1,
               status_forcelist := [429, 500, 502, 503, 504] }) ∧
    (fun _ : Nat => 503) 3 ∈ [429, 500, 502, 503, 504] ∧
    retryExec [429, 500, 502, 503, 504] (fun j => if j < 2 then 503 else 200) 0 5
      = .ok ((fun j => if j < 2 then 503 else 200) 2) := by
  refine ⟨claim_C4_amended.1 "tenant", ?_, ?_, ?_⟩
  · exact claim_C4_amended.2.2.1 "tok" "tenant" "s" "e" "base" ".json" (fun _ => []) []
      _ (by decide) (by decide)
  · exact claim_C4_amended.2.2.2.1 (fun _ => 503) 503 rfl 3 (by decide)
  · exact claim_C4_amended.2.2.2.2 (fun j => if j < 2 then 503 else 200) 2 (by decide)
      (by decide) (by decide)

/-- Claim C4 as stated is false: the retry adapter is mounted only for the
https scheme, so a content-fetch request to a non-https URI is issued
through the same session without any retry configuration. -/
theorem claim_C4_counterexample :
    ∃ r, r ∈ runHttpUri.requests ∧ get_session_with_retries.retryFor r.url = none := by
  refine ⟨{ method := .get, url := "http://content.example/1", params := [],
            bearer := some "tok", timeout := some REQUEST_TIMEOUT }, ?_, ?_⟩
  · decide
  · decide

/-- Claim C5 as stated is false: the token POST at source line 41 passes
no timeout argument at all, so it does not carry the 120 second timeout. -/
theorem claim_C5_counterexample :
    (token_request "tenant").timeout ≠ some REQUEST_TIMEOUT := by decide

/-- Claim C5 (amended): the listing GET and every content-fetch GET carry
the fixed 120 second timeout; the token POST carries no timeout. -/
theorem claim_C5_amended :
    (∀ tenant_id : String, (token_request tenant_id).timeout = none) ∧
    (∀ (tok tid sd ed b x : String) (fetch : String → List Json) (cl : List ContentEntry),
      ∀ r ∈ (collect_logs tok tid sd ed b x fetch cl).requests,
        r.timeout = some REQUEST_TIMEOUT) :=
  ⟨fun _ => rfl,
   fun tok tid sd ed b x fetch cl => collect_requests_timeout tok tid sd ed b x fetch cl⟩

theorem claim_C5_witness :
    (token_request "tenant").timeout = none ∧
    ({ method := .get, url := listing_url "tenant",
       params := [("contentType", "Audit.AzureActiveDirectory"),
                  ("startTime", "s"), ("endTime", "e")],
       bearer := some "tok", timeout := some REQUEST_TIMEOUT } : HttpRequest).timeout
      = some REQUEST_TIMEOUT :=
  ⟨claim_C5_amended.1 "tenant",
   claim_C5_amended.2 "tok" "tenant" "s" "e" "base" ".json" (fun _ => []) [] _ (by decide)⟩

/-- Claim C6 as stated is false: raise_for_status raises only for statuses
400 to 599, so a non-2xx status outside that range (for example a bare
303) is not reported as an authentication error; the code goes on and
returns the access_token field. -/
theorem claim_C6_counterexample :
    get_access_token ⟨303, .obj [("access_token", .str "tok")]⟩ = .ok (.str "tok") ∧
    ¬ (200 ≤ 303 ∧ 303 < 300) := by
  constructor
  · rfl
  · omega

/-- Claim C6 (amended): get_access_token fails with an AuthenticationError
carrying the HTTP status exactly when the status is in the 400 to 599
range that raise_for_status treats as an error; on any other status
(2xx, but also 1xx and 3xx) it returns exactly the access_token field of
the parsed JSON body, and fails with a MalformedResponseError when that
field is absent. -/
theorem claim_C6_amended (resp : HttpResponse) :
    (400 ≤ resp.status ∧ resp.status < 600 →
      get_access_token resp = .authError resp.status) ∧
    (¬ (400 ≤ resp.status ∧ resp.status < 600) →
      get_access_token resp =
        (match jsonGet resp.body "access_token" with
         | some t => .ok t
         | none => .malformed)) := by
  constructor
  · intro h
    rw [get_access_token, if_pos (by simp [raise_for_status]; omega)]
  · intro h
    rw [get_access_token, if_neg (by simp [raise_for_status]; omega)]

theorem claim_C6_witness :
    get_access_token ⟨401, .null⟩ = .authError 401 ∧
    get_access_token ⟨200, .obj [("access_token", .str "t")]⟩ = .ok (.str "t") ∧
    get_access_token ⟨200, .obj []⟩ = .malformed :=
  ⟨(claim_C6_amended ⟨401, .null⟩).1 (by decide),
   (claim_C6_amended ⟨200, .obj [("access_token", .str "t")]⟩).2 (by decide),
   (claim_C6_amended ⟨200, .obj []⟩).2 (by decide)⟩

/-- Claim C7: every line recorded by a run is the single-line serialization
of one event of one fetched content entry, followed by a newline, and
parsing the serialization back as JSON yields a value structurally equal
to that event. -/
theorem claim_C7_roundtrip (token tenant_id start_dt end_dt base ext : String)
    (fetch : String → List Json) (content_list : List ContentEntry) :
    ∀ w ∈ (collect_logs token tenant_id start_dt end_dt base ext fetch content_list).writes,
      ∃ c, c ∈ content_list ∧ ∃ uri ev, c.contentUri = some uri ∧ ev ∈ fetch uri ∧
        w.2 = dumps ev ++ "\n" ∧ loads (dumps ev) = some ev := by
  intro w hw
  obtain ⟨c, hc, uri, ev, h1, h2, h3⟩ :=
    collect_writes_prov token tenant_id start_dt end_dt base ext fetch content_list w hw
  exact ⟨c, hc, uri, ev, h1, h2, h3, loads_dumps ev⟩

theorem claim_C7_witness :
    ∃ c, c ∈ [(⟨some "https://content.example/1"⟩ : ContentEntry)] ∧ ∃ uri ev,
      c.contentUri = some uri ∧
      ev ∈ (fun _ : String => [Json.obj [("a", Json.num 1)]]) uri ∧
      (get_new_file_name "base" ".json" 0,
        dumps (Json.obj [("a", Json.num 1)]) ++ "\n").2 = dumps ev ++ "\n" ∧
      loads (dumps ev) = some ev :=
  claim_C7_roundtrip "tok" "tenant" "s" "e" "base" ".json"
    (fun _ => [Json.obj [("a", Json.num 1)]]) [⟨some "https://content.example/1"⟩]
    (get_new_file_name "base" ".json" 0, dumps (Json.obj [("a", Json.num 1)]) ++ "\n")
    (by
      rw [show (collect_logs "tok" "tenant" "s" "e" "base" ".json"
          (fun _ => [Json.obj [("a", Json.num 1)]])
          [⟨some "https://content.example/1"⟩]).writes
        = [(get_new_file_name "base" ".json" 0,
            dumps (Json.obj [("a", Json.num 1)]) ++ "\n")] from rfl]
      simp)

/-- Claim C8: a listing entry with no contentUri field is skipped without
error: processing it changes nothing (no request, no open, no write, no
count), and removing such an entry from the listing leaves the whole run
unchanged. -/
theorem claim_C8_skip (base ext token : String) (fetch : String → List Json)
    (st : CollectState) (c : ContentEntry) (h : c.contentUri = none) :
    processContent base ext token fetch st c = st ∧
    (∀ (tok tid sd ed : String) (l1 l2 : List ContentEntry),
      collect_logs tok tid sd ed base ext fetch (l1 ++ c :: l2)
        = collect_logs tok tid sd ed base ext fetch (l1 ++ l2)) := by
  constructor
  · exact processContent_skip base ext token fetch st h
  · intro tok tid sd ed l1 l2
    rw [collect_logs, collect_logs, List.foldl_append, List.foldl_append, List.foldl_cons]
    rw [processContent_skip base ext tok fetch _ h]

theorem claim_C8_witness :
    processContent "base" ".json" "tok" (fun _ => [])
        ⟨0, "f", 0, 0, [], [], []⟩ ⟨none⟩ = ⟨0, "f", 0, 0, [], [], []⟩ ∧
    collect_logs "tok" "tenant" "s" "e" "base" ".json" (fun _ => [])
        ([⟨some "https://content.example/1"⟩] ++ (⟨none⟩ : ContentEntry) :: [])
      = collect_logs "tok" "tenant" "s" "e" "base" ".json" (fun _ => [])
        ([⟨some "https://content.example/1"⟩] ++ []) :=
  ⟨(claim_C8_skip "base" ".json" "tok" (fun _ => []) ⟨0, "f", 0, 0, [], [], []⟩ ⟨none⟩ rfl).1,
   (claim_C8_skip "base" ".json" "tok" (fun _ => []) ⟨0, "f", 0, 0, [], [], []⟩ ⟨none⟩ rfl).2
     "tok" "tenant" "s" "e" [⟨some "https://content.example/1"⟩] []⟩

/-- Claim C9: when the listing is empty, or no entry carries a non-empty
contentUri (an empty-string URI is falsy in python and is skipped exactly
like a missing one), the run returns 0, opens no file and writes nothing;
the index-0 file name is computed in the initial state but never used. -/
theorem claim_C9_no_output (token tenant_id start_dt end_dt base ext : String)
    (fetch : String → List Json) (content_list : List ContentEntry)
    (h : ∀ c ∈ content_list, ∀ u, c.contentUri = some u → u.data.isEmpty = true) :
    (collect_logs token tenant_id start_dt end_dt base ext fetch content_list).total_logs = 0 ∧
    (collect_logs token tenant_id start_dt end_dt base ext fetch content_list).opens = [] ∧
    (collect_logs token tenant_id start_dt end_dt base ext fetch content_list).writes = [] ∧
    (collect_logs token tenant_id start_dt end_dt base ext fetch content_list).current_file_name
      = get_new_file_name base ext 0 := by
  rw [collect_logs, foldl_processContent_skip base ext token fetch content_list _ h]
  exact ⟨rfl, rfl, rfl, rfl⟩

theorem claim_C9_witness :
    (collect_logs "tok" "tenant" "s" "e" "base" ".json" (fun _ => [Json.null])
        [⟨none⟩, ⟨some ""⟩]).total_logs = 0 ∧
    (collect_logs "tok" "tenant" "s" "e" "base" ".json" (fun _ => [Json.null])
        [⟨none⟩, ⟨some ""⟩]).opens = [] ∧
    (collect_logs "tok" "tenant" "s" "e" "base" ".json" (fun _ => [Json.null])
        [⟨none⟩, ⟨some ""⟩]).writes = [] ∧
    (collect_logs "tok" "tenant" "s" "e" "base" ".json" (fun _ => [Json.null])
        [⟨none⟩, ⟨some ""⟩]).current_file_name = get_new_file_name "base" ".json" 0 :=
  claim_C9_no_output "tok" "tenant" "s" "e" "base" ".json" (fun _ => [Json.null])
    [⟨none⟩, ⟨some ""⟩]
    (by
      intro c hc u hu
      simp only [List.mem_cons, List.not_mem_nil, or_false] at hc
      rcases hc with h1 | h1
      · rw [h1] at hu
        exact absurd hu (by simp)
      · rw [h1] at hu
        simp at hu
        rw [← hu]
        rfl)

/-- Claim C10: at the end of any run the rotation counter equals the sum,
over the events written since the counter was last reset, of the character
length of the serialized event plus one (those events form a suffix of the
write trace); since characters are counted rather than encoded bytes, an
event with a non-ASCII character makes the counter smaller than the bytes
actually appended, as the runAccent run shows. -/
theorem claim_C10_size_counter :
    (∀ (token tenant_id start_dt end_dt base ext : String)
       (fetch : String → List Json) (content_list : List ContentEntry),
      ∃ es : List Json,
        (collect_logs token tenant_id start_dt end_dt base ext fetch
            content_list).current_file_size
          = (es.map (fun e => (dumps e).length + 1)).sum ∧
        es.map (fun e => dumps e ++ "\n")
          <:+ (collect_logs token tenant_id start_dt end_dt base ext fetch
              content_list).writes.map Prod.snd) ∧
    runAccent.current_file_size < fileBytes runAccent.writes (get_new_file_name "b" ".j" 0) := by
  constructor
  · intro token tenant_id start_dt end_dt base ext fetch content_list
    exact collect_logs_sizeInv token tenant_id start_dt end_dt base ext fetch content_list
  · decide

example :
    loads (dumps (Json.obj [("a", .num 1), ("b", .arr [.null, .str "é", .num (-2)])]))
      = some (Json.obj [("a", .num 1), ("b", .arr [.null, .str "é", .num (-2)])]) := by
  rfl

example : dumps (Json.str "a\né") = "\"a\\né\"" := by rfl

example : loads "\x7b\"x\": [1, true, \"\\u0007\"]\x7d" = some (.obj [("x", .arr [.num 1, .bool true, .str "\x07"])]) := by rfl
